import Mathlib

/-!
# Verification of the DKR ranking optimizer core

Shallow embedding of `dkr_optimizer/models.py` and `dkr_optimizer/optimizer.py`:
the time codec, the tier deriver, the opportunity builder, and the two overtake
planners (the cost-minimizing multi-choice-knapsack planner with its dynamic
program and backtracking, and the greedy track-minimizing planner).

Conventions of the embedding:
* Python's unbounded `int` is modelled by `ℤ` (or `ℕ` where the source value is
  a count or an index that is never negative).
* Python `float` quantities (average-finish values, efficiencies, weighted DP
  costs) are modelled by `ℚ`: every IEEE-754 float value is a rational, and the
  claims under verification concern the algorithmic structure, not rounding.
  The exponential difficulty weight `exp(5*(1 - target/current))` is therefore
  passed to the planners as an abstract weight function `W : ℕ → ℕ → ℚ`; the
  mathematical weight itself is modelled separately over `ℝ` for its own claim.
* `float("inf")` efficiencies are modelled by `⊤ : WithTop ℚ`.
* Fallible code (`raise`) is modelled with `Except String`.
-/

set_option maxRecDepth 3000

/-! ## Data model (`models.py`) -/

/-- `models.LeaderboardEntry`. -/
structure LeaderboardEntry where
  rank : ℕ
  username : String
  display_name : String
  time_cs : ℕ
  is_default : Bool
deriving DecidableEq, Repr

instance : Inhabited LeaderboardEntry := ⟨⟨0, "", "", 0, false⟩⟩

/-- `models.PlayerTrackTime`. -/
structure PlayerTrackTime where
  track_slug : String
  track_name : String
  vehicle : String
  category : String
  laps : String
  time_cs : ℕ
  rank : ℕ
  is_na : Bool
deriving DecidableEq, Repr

/-- `models.OpportunityTier`.  `target_time_cs` and `time_delta_cs` come from
integer subtraction and are kept in `ℤ`; `positions_gained` is the climb size. -/
structure OpportunityTier where
  target_rank : ℕ
  opponent_time_cs : ℕ
  target_time_cs : ℤ
  positions_gained : ℕ
  af_improvement : ℚ
  time_delta_cs : ℤ
  efficiency : WithTop ℚ
deriving DecidableEq

/-- `models.Opportunity`. -/
structure Opportunity where
  track_slug : String
  track_name : String
  vehicle : String
  category : String
  laps : String
  current_rank : ℕ
  current_time_cs : ℕ
  is_na : Bool
  tiers : List OpportunityTier := []
  best_efficiency : WithTop ℚ := 0
  best_tier_idx : ℕ := 0
deriving DecidableEq

/-- `models.OvertakePlanItem`.  `positions_gained` is computed by integer
subtraction in the N/A branch of the group builder, hence `ℤ`. -/
structure OvertakePlanItem where
  track_slug : String
  track_name : String
  vehicle : String
  category : String
  laps : String
  is_na : Bool
  current_rank : ℕ
  current_time_cs : ℕ
  new_rank : ℕ
  target_time_cs : ℤ
  opponent_time_cs : ℕ
  positions_gained : ℤ
  af_improvement : ℚ
  time_delta_cs : ℤ
  efficiency : WithTop ℚ
deriving DecidableEq

/-- `models.OvertakePlan`. -/
structure OvertakePlan where
  target_username : String
  target_af : ℚ
  current_af : ℚ
  af_gap : ℚ
  total_positions_needed : ℤ
  total_positions_gained : ℤ
  total_time_investment_cs : ℤ
  new_af : ℚ
  items : List OvertakePlanItem := []
  feasible : Bool := true
deriving DecidableEq

/-! ## Time codec (`models.parse_time` / `models.format_time`) -/

/-- Python `str.strip()`: drop leading and trailing whitespace. -/
def pyStrip (cs : List Char) : List Char :=
  ((cs.dropWhile Char.isWhitespace).reverse.dropWhile Char.isWhitespace).reverse

/-- Python `str.split(sep)` for a one-character separator: split into fields,
keeping empty fields (`"".split(":") == [""]`, `":".split(":") == ["", ""]`). -/
def pySplit (sep : Char) : List Char → List Char → List (List Char)
  | [], acc => [acc.reverse]
  | c :: cs, acc =>
      if c = sep then acc.reverse :: pySplit sep cs []
      else pySplit sep cs (c :: acc)

/-- Python `int(text)` on one field: optional surrounding whitespace, an
optional sign, then a non-empty run of decimal digits. -/
def pyInt? (cs : List Char) : Option ℤ :=
  let body := pyStrip cs
  let digitsToNat (ds : List Char) : Option ℤ :=
    if ds ≠ [] ∧ ds.all Char.isDigit then
      some (ds.foldl (fun n d => n * 10 + (d.toNat - 48)) 0 : ℕ)
    else none
  match body with
  | '-' :: rest => (digitsToNat rest).map (fun n => -n)
  | '+' :: rest => digitsToNat rest
  | _ => digitsToNat body

/-- `models.parse_time`: strip, split on `":"`, require exactly three fields,
convert each with `int(...)`, and combine as
`minutes*6000 + seconds*100 + centiseconds`.  A failed conversion or a wrong
field count raises `ValueError`, modelled as `Except.error`. -/
def parse_time (time_str : String) : Except String ℤ :=
  let parts := pySplit ':' (pyStrip time_str.toList) []
  if parts.length ≠ 3 then
    Except.error ("Invalid time format: " ++ time_str ++ ", expected MM:SS:CC")
  else
    match pyInt? (parts.getD 0 []), pyInt? (parts.getD 1 []), pyInt? (parts.getD 2 []) with
    | some minutes, some seconds, some centiseconds =>
        Except.ok (minutes * 6000 + seconds * 100 + centiseconds)
    | _, _, _ => Except.error "invalid literal for int"

/-- Python's `f"{n:02d}"` for a non-negative value: zero-pad to two digits. -/
def pad2 (n : ℕ) : String :=
  if n < 10 then "0" ++ toString n else toString n

/-- `models.format_time`: integer division/modulo by 6000 and 100, rendered —
exactly as the f-string in the source does — as `MM:SS.CC`, with a **period**
(not a colon) before the centiseconds field. -/
def format_time (cs : ℕ) : String :=
  let minutes := cs / 6000
  let remainder := cs % 6000
  let seconds := remainder / 100
  let centiseconds := remainder % 100
  pad2 minutes ++ ":" ++ pad2 seconds ++ "." ++ pad2 centiseconds

example : format_time 754321 = "125:43.21" := by rfl
example : parse_time "02:03:04" = Except.ok 12304 := by rfl

/-- **C3.**  The time codec does **not** round-trip: `format_time` renders its
output as `"MM:SS.CC"` — with a period before the centiseconds field, contrary
to its own docstring's `"MM:SS:CC"` — while `parse_time` splits on `":"` and
demands exactly three fields.  At the failing input `n = 0`:
`format_time 0 = "00:00.00"`, `parse_time` rejects it with a `ValueError`
(so `parse_time (format_time 0) ≠ Except.ok 0`), and in the other direction
the well-formed string `"00:00:00"` parses to 0 but formats back to
`"00:00.00" ≠ "00:00:00"`. -/
theorem time_codec_roundtrip_fails :
    format_time 0 = "00:00.00" ∧
    parse_time (format_time 0) =
      Except.error "Invalid time format: 00:00.00, expected MM:SS:CC" ∧
    parse_time "00:00:00" = Except.ok 0 ∧
    format_time 0 ≠ "00:00:00" :=
  ⟨by decide, by rfl, by rfl, by decide⟩

/-! ## Tier deriver (`optimizer._compute_tiers`) -/

/-- `optimizer.TIER_TARGETS`: the climb sizes analyzed for display tiers. -/
def TIER_TARGETS : List ℕ := [1, 3, 5, 10, 15, 20, 25]

/-- The tier built by the body of the `_compute_tiers` loop for a (clamped,
de-duplicated) climb size `tier_n`: target entry at index
`len(above_entries) - tier_n`, required time = opponent's time − 1cs,
investment = player's time − required time. -/
def tierFor (above_entries : List LeaderboardEntry) (player_time_cs : ℕ)
    (total_tracks : ℕ) (tier_n : ℕ) : OpportunityTier :=
  let target_entry := above_entries.getD (above_entries.length - tier_n) default
  let target_time_cs : ℤ := (target_entry.time_cs : ℤ) - 1
  let time_delta : ℤ := (player_time_cs : ℤ) - target_time_cs
  { target_rank := target_entry.rank
    opponent_time_cs := target_entry.time_cs
    target_time_cs := target_time_cs
    positions_gained := tier_n
    af_improvement := (tier_n : ℚ) / (total_tracks : ℚ)
    time_delta_cs := time_delta
    efficiency := (((tier_n : ℚ) / (total_tracks : ℚ)) / (time_delta : ℚ) : ℚ) }

/-- The recursion of `optimizer._compute_tiers`: walk the requested climb
sizes, clamping each to the size of the above-set, stopping at a clamped size
of 0, skipping sizes already seen, and dropping candidates whose time delta is
≤ 0.  The `seen` accumulator models the Python `seen_targets` set (a size is
added to it before the delta check, exactly as in the source). -/
def computeTiersAux (above_entries : List LeaderboardEntry) (player_time_cs : ℕ)
    (total_tracks : ℕ) : List ℕ → List ℕ → List OpportunityTier
  | [], _ => []
  | t :: ts, seen =>
      let tier_n := if t > above_entries.length then above_entries.length else t
      if tier_n = 0 then []
      else if tier_n ∈ seen then
        computeTiersAux above_entries player_time_cs total_tracks ts seen
      else
        let seen2 := tier_n :: seen
        if (tierFor above_entries player_time_cs total_tracks tier_n).time_delta_cs ≤ 0 then
          computeTiersAux above_entries player_time_cs total_tracks ts seen2
        else
          tierFor above_entries player_time_cs total_tracks tier_n ::
          computeTiersAux above_entries player_time_cs total_tracks ts seen2

/-- `optimizer._compute_tiers(above_entries, player_time_cs, total_tracks,
tier_targets)`. -/
def compute_tiers (above_entries : List LeaderboardEntry) (player_time_cs : ℕ)
    (total_tracks : ℕ) (tier_targets : List ℕ) : List OpportunityTier :=
  computeTiersAux above_entries player_time_cs total_tracks tier_targets []

/-- The four-entry leaderboard of the spec's first end-to-end scenario
(ranks 1–4 at times 9000, 9200, 9400, 9600; the player is rank 5 at 10000cs).
Used as concrete test data for the tier claims. -/
def above4 : List LeaderboardEntry :=
  [⟨1, "p1", "p1", 9000, false⟩, ⟨2, "p2", "p2", 9200, false⟩,
   ⟨3, "p3", "p3", 9400, false⟩, ⟨4, "p4", "p4", 9600, false⟩]

example : (compute_tiers above4 10000 1 TIER_TARGETS).map (·.positions_gained) = [1, 3, 4] := by
  decide
example : (compute_tiers above4 10000 1 TIER_TARGETS).map (·.target_time_cs) =
    [9599, 9199, 8999] := by decide
example : (compute_tiers above4 10000 1 TIER_TARGETS).map (·.time_delta_cs) =
    [401, 801, 1001] := by decide

/-- Every tier emitted by the `_compute_tiers` loop is the canonical tier of
some clamped, non-zero, not-yet-seen climb size taken from the remaining
targets. -/
theorem computeTiersAux_mem (above_entries : List LeaderboardEntry)
    (player_time_cs total_tracks : ℕ) (ts : List ℕ) :
    ∀ (seen : List ℕ) (tier : OpportunityTier),
      tier ∈ computeTiersAux above_entries player_time_cs total_tracks ts seen →
      ∃ t n, t ∈ ts ∧ n = (if t > above_entries.length then above_entries.length else t) ∧
        n ≠ 0 ∧ n ∉ seen ∧ tier = tierFor above_entries player_time_cs total_tracks n := by
  induction ts with
  | nil => intro seen tier h; simp [computeTiersAux] at h
  | cons t ts ih =>
      intro seen tier h
      simp only [computeTiersAux] at h
      generalize hclamp :
        (if t > above_entries.length then above_entries.length else t) = n at h
      split at h
      · exact absurd h (List.not_mem_nil _)
      · rename_i hne
        split at h
        · rcases ih seen tier h with ⟨t', n', ht', hn', h0', hs', he'⟩
          exact ⟨t', n', List.mem_cons_of_mem _ ht', hn', h0', hs', he'⟩
        · rename_i hseen
          split at h
          · rcases ih _ tier h with ⟨t', n', ht', hn', h0', hs', he'⟩
            exact ⟨t', n', List.mem_cons_of_mem _ ht', hn', h0',
              fun hc => hs' (List.mem_cons_of_mem _ hc), he'⟩
          · rcases List.mem_cons.mp h with he | hrest
            · exact ⟨t, n, List.mem_cons_self _ _, hclamp.symm, hne, hseen, he⟩
            · rcases ih _ tier hrest with ⟨t', n', ht', hn', h0', hs', he'⟩
              exact ⟨t', n', List.mem_cons_of_mem _ ht', hn', h0',
                fun hc => hs' (List.mem_cons_of_mem _ hc), he'⟩

/-- For two climb sizes `1 ≤ n < n' ≤ len(above)` over an above-set whose
times are strictly increasing along the list, the canonical tiers compare as
the code produces them: strictly more positions, a strictly **smaller**
required time, and a strictly larger time investment. -/
theorem tierFor_rel (above_entries : List LeaderboardEntry)
    (player_time_cs total_tracks : ℕ)
    (hA : above_entries.Pairwise (fun a b => a.time_cs < b.time_cs))
    (n n' : ℕ) (h1 : 1 ≤ n) (h2 : n < n') (h3 : n' ≤ above_entries.length) :
    (tierFor above_entries player_time_cs total_tracks n).positions_gained <
      (tierFor above_entries player_time_cs total_tracks n').positions_gained ∧
    (tierFor above_entries player_time_cs total_tracks n').target_time_cs <
      (tierFor above_entries player_time_cs total_tracks n).target_time_cs ∧
    (tierFor above_entries player_time_cs total_tracks n).time_delta_cs ≤
      (tierFor above_entries player_time_cs total_tracks n').time_delta_cs := by
  have hL : above_entries.length - n' < above_entries.length := by omega
  have hLn : above_entries.length - n < above_entries.length := by omega
  have hlt : (above_entries.get ⟨above_entries.length - n', hL⟩).time_cs <
      (above_entries.get ⟨above_entries.length - n, hLn⟩).time_cs := by
    rw [List.pairwise_iff_get] at hA
    exact hA ⟨_, hL⟩ ⟨_, hLn⟩ (by simp only [Fin.mk_lt_mk]; omega)
  simp only [tierFor, List.getD_eq_get _ _ hL, List.getD_eq_get _ _ hLn]
  refine ⟨h2, ?_, ?_⟩ <;> omega

/-- The `_compute_tiers` loop yields a pairwise-monotone tier list whenever
the requested climb sizes are weakly increasing and the above-set's times are
strictly increasing along the list. -/
theorem computeTiersAux_pairwise (above_entries : List LeaderboardEntry)
    (player_time_cs total_tracks : ℕ)
    (hA : above_entries.Pairwise (fun a b => a.time_cs < b.time_cs)) :
    ∀ (ts seen : List ℕ), ts.Sorted (· ≤ ·) →
      (computeTiersAux above_entries player_time_cs total_tracks ts seen).Pairwise
        (fun a b => a.positions_gained < b.positions_gained ∧
          b.target_time_cs < a.target_time_cs ∧
          a.time_delta_cs ≤ b.time_delta_cs) := by
  intro ts
  induction ts with
  | nil => intro seen _; simp [computeTiersAux]
  | cons t ts ih =>
      intro seen hsort
      have hsort' : ts.Sorted (· ≤ ·) := hsort.of_cons
      simp only [computeTiersAux]
      generalize hclamp :
        (if t > above_entries.length then above_entries.length else t) = n
      split
      · exact List.Pairwise.nil
      · rename_i hne
        split
        · exact ih seen hsort'
        · rename_i hseen
          split
          · exact ih _ hsort'
          · refine List.Pairwise.cons ?_ (ih _ hsort')
            intro b hb
            rcases computeTiersAux_mem _ _ _ _ _ b hb with ⟨t', n', ht', hn', h0', hs', he'⟩
            have hle : t ≤ t' := List.rel_of_sorted_cons hsort _ ht'
            have hmono : n ≤ n' := by
              rw [← hclamp, hn']; split <;> split <;> omega
            have hnn : n ≠ n' := by
              intro hc; exact hs' (hc ▸ List.mem_cons_self _ _)
            have hub : n' ≤ above_entries.length := by
              rw [hn']; split <;> omega
            have h1 : 1 ≤ n := by omega
            rw [he']
            exact tierFor_rel above_entries player_time_cs total_tracks hA n n' h1
              (by omega) hub

/-! ## Opportunity builder (`optimizer.compute_opportunities`) -/

/-- Python `str.lower()` (ASCII suffices for the usernames compared here). -/
def pyLower (s : String) : String := String.mk (s.toList.map Char.toLower)

/-- The leaderboard key `f"{track_slug}/{vehicle}/{category}/{laps}"`. -/
def lbKey (pt : PlayerTrackTime) : String :=
  pt.track_slug ++ "/" ++ pt.vehicle ++ "/" ++ pt.category ++ "/" ++ pt.laps

/-- `optimizer._compute_na_opportunity`: the N/A-track rule.  With no real
entries the Opportunity has no tiers.  Otherwise the player's effective rank
is one past the last real entry's rank and the estimated landing rank is one
past the worst real entry's rank; since `real_entries[-1]` *is* the worst
real entry, both equal `worst.rank + 1` (so the ℕ subtraction below agrees
with Python's int subtraction: both give 0). -/
def compute_na_opportunity (pt : PlayerTrackTime)
    (real_entries : List LeaderboardEntry) (total_tracks : ℕ) : Opportunity :=
  match real_entries.getLast? with
  | none =>
      { track_slug := pt.track_slug, track_name := pt.track_name,
        vehicle := pt.vehicle, category := pt.category, laps := pt.laps,
        current_rank := 0, current_time_cs := 0, is_na := true, tiers := [] }
  | some worst_real =>
      let total_players := worst_real.rank + 1
      let effective_last_rank := total_players
      let estimated_new_rank := worst_real.rank + 1
      let positions_gained := effective_last_rank - estimated_new_rank
      let af_improvement : ℚ := (positions_gained : ℚ) / (total_tracks : ℚ)
      let tier : OpportunityTier :=
        { target_rank := estimated_new_rank
          opponent_time_cs := worst_real.time_cs
          target_time_cs := (worst_real.time_cs : ℤ)
          positions_gained := positions_gained
          af_improvement := af_improvement
          time_delta_cs := (worst_real.time_cs : ℤ)
          efficiency := ⊤ }
      { track_slug := pt.track_slug, track_name := pt.track_name,
        vehicle := pt.vehicle, category := pt.category, laps := pt.laps,
        current_rank := effective_last_rank, current_time_cs := 0,
        is_na := true, tiers := [tier], best_efficiency := ⊤, best_tier_idx := 0 }

/-- `optimizer._find_player_position`: locate the player's own entry by
case-insensitive username match (`find?` is the first match, and the entries
before the first match are `takeWhile` of its negation, i.e. Python's
`real_entries[:player_entry_idx]`); if absent, fall back to the externally
supplied rank/time and take every strictly faster real entry as the
above-set. -/
def find_player_position (pt : PlayerTrackTime)
    (real_entries : List LeaderboardEntry) (player_username : String) :
    ℕ × ℕ × List LeaderboardEntry :=
  match real_entries.find? (fun e => pyLower e.username == pyLower player_username) with
  | none =>
      (pt.rank, pt.time_cs, real_entries.filter (fun e => e.time_cs < pt.time_cs))
  | some e =>
      (e.rank, e.time_cs,
        real_entries.takeWhile (fun x => !(pyLower x.username == pyLower player_username)))

/-- The `best_efficiency` / `best_tier_idx` selection loop of
`_compute_existing_time_opportunity` (strict improvement, first maximum
wins, starting from `0.0` and index 0). -/
def bestEffAux : List OpportunityTier → ℕ → WithTop ℚ × ℕ → WithTop ℚ × ℕ
  | [], _, acc => acc
  | t :: ts, i, (be, bi) =>
      bestEffAux ts (i + 1) (if be < t.efficiency then (t.efficiency, i) else (be, bi))

/-- `optimizer._compute_existing_time_opportunity`.  (The Python signature
allows `None` but every path returns an Opportunity.) -/
def compute_existing_time_opportunity (pt : PlayerTrackTime)
    (real_entries : List LeaderboardEntry) (total_tracks : ℕ)
    (player_username : String) : Opportunity :=
  let fp := find_player_position pt real_entries player_username
  let player_rank := fp.1
  let player_time_cs := fp.2.1
  let above_entries := fp.2.2
  if above_entries = [] ∨ player_rank ≤ 1 then
    { track_slug := pt.track_slug, track_name := pt.track_name,
      vehicle := pt.vehicle, category := pt.category, laps := pt.laps,
      current_rank := player_rank, current_time_cs := player_time_cs,
      is_na := false, tiers := [] }
  else
    let tiers := compute_tiers above_entries player_time_cs total_tracks TIER_TARGETS
    let best := bestEffAux tiers 0 (0, 0)
    { track_slug := pt.track_slug, track_name := pt.track_name,
      vehicle := pt.vehicle, category := pt.category, laps := pt.laps,
      current_rank := player_rank, current_time_cs := player_time_cs,
      is_na := false, tiers := tiers,
      best_efficiency := best.1, best_tier_idx := best.2 }

/-- The collection loop of `optimizer.compute_opportunities`: skip variants
with no leaderboard, split off placeholder entries, dispatch on N/A, and keep
the Opportunity only when it has at least one tier (`if opp and opp.tiers:` —
a dataclass instance is always truthy, so the guard is exactly
`opp.tiers ≠ []`). -/
def computeOpportunitiesAux (leaderboards : List (String × List LeaderboardEntry))
    (total_tracks : ℕ) (player_username : String) :
    List PlayerTrackTime → List Opportunity
  | [] => []
  | pt :: rest =>
      let r := computeOpportunitiesAux leaderboards total_tracks player_username rest
      let entries := (leaderboards.lookup (lbKey pt)).getD []
      if entries = [] then r
      else
        let real_entries := entries.filter (fun e => !e.is_default)
        let opp :=
          if pt.is_na then compute_na_opportunity pt real_entries total_tracks
          else compute_existing_time_opportunity pt real_entries total_tracks player_username
        if opp.tiers ≠ [] then opp :: r else r

/-- `optimizer.compute_opportunities`: collect, then sort by best efficiency
descending (Python's stable sort, modelled by insertion sort — the claims at
stake depend on the result only up to permutation). -/
def compute_opportunities (player_times : List PlayerTrackTime)
    (leaderboards : List (String × List LeaderboardEntry))
    (total_tracks : ℕ) (player_username : String) : List Opportunity :=
  List.insertionSort (fun a b => b.best_efficiency ≤ a.best_efficiency)
    (computeOpportunitiesAux leaderboards total_tracks player_username player_times)

/-- Every Opportunity kept by the collection loop has at least one tier: the
`if opp and opp.tiers:` guard admits nothing else. -/
theorem computeOpportunitiesAux_tiers_nonempty
    (leaderboards : List (String × List LeaderboardEntry))
    (total_tracks : ℕ) (player_username : String) :
    ∀ (player_times : List PlayerTrackTime) (o : Opportunity),
      o ∈ computeOpportunitiesAux leaderboards total_tracks player_username player_times →
      o.tiers ≠ [] := by
  intro pts
  induction pts with
  | nil => intro o h; simp [computeOpportunitiesAux] at h
  | cons pt rest ih =>
      intro o h
      simp only [computeOpportunitiesAux] at h
      split at h
      · exact ih o h
      · split at h
        all_goals
          split at h
          · rename_i hguard
            rcases List.mem_cons.mp h with he | hrest
            · subst he; exact hguard
            · exact ih o hrest
          · exact ih o h

/-- **C10.**  Every Opportunity in the list returned by
`compute_opportunities` has at least one tier: zero-tier Opportunities
(player at rank 1, empty above-set, or all candidate tiers dropped) are
omitted from the returned list. -/
theorem compute_opportunities_tiers_nonempty (player_times : List PlayerTrackTime)
    (leaderboards : List (String × List LeaderboardEntry))
    (total_tracks : ℕ) (player_username : String) :
    ∀ o ∈ compute_opportunities player_times leaderboards total_tracks player_username,
      o.tiers ≠ [] := fun o ho =>
  computeOpportunitiesAux_tiers_nonempty leaderboards total_tracks player_username
    player_times o ((List.perm_insertionSort _ _).subset ho)

instance : Inhabited Opportunity :=
  ⟨{ track_slug := "", track_name := "", vehicle := "", category := "",
     laps := "", current_rank := 0, current_time_cs := 0, is_na := false }⟩

/-- A small-valued above-set for concrete witness scenarios (small times keep
the rational-arithmetic normalizations shallow). -/
def aboveS : List LeaderboardEntry :=
  [⟨1, "a", "a", 90, false⟩, ⟨2, "b", "b", 92, false⟩,
   ⟨3, "c", "c", 94, false⟩, ⟨4, "d", "d", 96, false⟩]

/-- One ranked track variant for concrete scenarios: the player `"me"` is
rank 5 at 100cs behind the four entries of `aboveS`. -/
def pts1 : List PlayerTrackTime :=
  [⟨"t", "T", "car", "standard", "3-laps", 100, 5, false⟩]

/-- The matching leaderboard snapshot for `pts1`. -/
def lbs1 : List (String × List LeaderboardEntry) :=
  [("t/car/standard/3-laps", aboveS ++ [⟨5, "me", "me", 100, false⟩])]

/-- Witness for `compute_opportunities_tiers_nonempty`: on the concrete
scenario the returned list is non-empty and the theorem applies to its head. -/
theorem compute_opportunities_tiers_nonempty_witness :
    (compute_opportunities pts1 lbs1 1 "me").getD 0 default ∈
      compute_opportunities pts1 lbs1 1 "me" ∧
    ((compute_opportunities pts1 lbs1 1 "me").getD 0 default).tiers ≠ [] :=
  ⟨by with_unfolding_all decide,
    compute_opportunities_tiers_nonempty pts1 lbs1 1 "me" _ (by with_unfolding_all decide)⟩

/-- **C4, counterexample.** On the spec's own end-to-end data (entries at
ranks 1–4 with times 9000, 9200, 9400, 9600, player at 10000cs) the required
times of the derived tiers are 9599, 9199, 8999: they strictly *decrease*
with tier index, refuting the claim that `target_time_cs` is strictly
increasing with tier index. -/
theorem compute_tiers_target_time_not_increasing :
    (compute_tiers above4 10000 1 TIER_TARGETS).map (·.target_time_cs) =
      [9599, 9199, 8999] ∧
    ¬ ((compute_tiers above4 10000 1 TIER_TARGETS).map
        (·.target_time_cs)).Pairwise (· < ·) := by
  constructor
  · decide
  · decide

/-- **C4, amended.**  For every tier list produced by the tier deriver from a
weakly increasing list of climb-size targets (both call sites —
`TIER_TARGETS` and `range(1, N+1)` — are increasing) over an above-set whose
times strictly increase along the list, positions-gained is strictly
increasing with tier index, required time (`target_time_cs`) is strictly
**decreasing** with tier index, and time investment (`time_delta_cs`) is
non-decreasing with tier index. -/
theorem compute_tiers_monotone (above_entries : List LeaderboardEntry)
    (player_time_cs total_tracks : ℕ) (tier_targets : List ℕ)
    (hT : tier_targets.Sorted (· ≤ ·))
    (hA : above_entries.Pairwise (fun a b => a.time_cs < b.time_cs)) :
    (compute_tiers above_entries player_time_cs total_tracks tier_targets).Pairwise
      (fun a b => a.positions_gained < b.positions_gained ∧
        b.target_time_cs < a.target_time_cs ∧
        a.time_delta_cs ≤ b.time_delta_cs) :=
  computeTiersAux_pairwise above_entries player_time_cs total_tracks hA tier_targets [] hT

/-- Witness for `compute_tiers_monotone` on the spec's end-to-end data. -/
theorem compute_tiers_monotone_witness :
    (TIER_TARGETS.Sorted (· ≤ ·) ∧
      above4.Pairwise (fun a b => a.time_cs < b.time_cs)) ∧
    (compute_tiers above4 10000 1 TIER_TARGETS).Pairwise
      (fun a b => a.positions_gained < b.positions_gained ∧
        b.target_time_cs < a.target_time_cs ∧
        a.time_delta_cs ≤ b.time_delta_cs) :=
  ⟨⟨by decide, by decide⟩,
    compute_tiers_monotone above4 10000 1 TIER_TARGETS (by decide) (by decide)⟩

/-! ## Overtake group builder (`optimizer._build_overtake_groups`) -/

/-- An option tuple `(positions_gained, time_delta_cs, plan_item)` of a ranked
group, as built by `_build_overtake_groups`. -/
abbrev RawOpt := ℕ × ℤ × OvertakePlanItem

instance : Inhabited OvertakePlanItem :=
  ⟨{ track_slug := "", track_name := "", vehicle := "", category := "",
     laps := "", is_na := false, current_rank := 0, current_time_cs := 0,
     new_rank := 0, target_time_cs := 0, opponent_time_cs := 0,
     positions_gained := 0, af_improvement := 0, time_delta_cs := 0,
     efficiency := 0 }⟩

/-- The `OvertakePlanItem` built for one tier of a ranked variant
(`optimizer._build_overtake_groups`, ranked branch). -/
def mkRankedItem (pt : PlayerTrackTime) (player_rank player_time_cs : ℕ)
    (tier : OpportunityTier) : OvertakePlanItem :=
  { track_slug := pt.track_slug, track_name := pt.track_name,
    vehicle := pt.vehicle, category := pt.category, laps := pt.laps,
    is_na := false, current_rank := player_rank,
    current_time_cs := player_time_cs, new_rank := tier.target_rank,
    target_time_cs := tier.target_time_cs,
    opponent_time_cs := tier.opponent_time_cs,
    positions_gained := (tier.positions_gained : ℤ),
    af_improvement := tier.af_improvement,
    time_delta_cs := tier.time_delta_cs, efficiency := tier.efficiency }

/-- `optimizer._build_overtake_groups`: N/A items and ranked groups with all
possible tiers (climb sizes `1..len(above)`).  The N/A branch computes
`positions_gained` by integer subtraction of two expressions that are both
`worst_real.rank + 1` and skips the item unless it is positive; the ranked
branch skips variants where the player leads or the above-set is empty and
groups with no surviving tier. -/
def build_overtake_groups :
    List PlayerTrackTime → List (String × List LeaderboardEntry) → ℕ → String →
    List OvertakePlanItem × List (List RawOpt)
  | [], _, _, _ => ([], [])
  | pt :: rest, leaderboards, total_tracks, player_username =>
      let r := build_overtake_groups rest leaderboards total_tracks player_username
      let entries := (leaderboards.lookup (lbKey pt)).getD []
      if entries = [] then r
      else
        let real_entries := entries.filter (fun e => !e.is_default)
        if pt.is_na then
          match real_entries.getLast? with
          | none => r
          | some worst_real =>
              let total_players := worst_real.rank + 1
              let effective_last_rank := total_players
              let estimated_new_rank := worst_real.rank + 1
              let positions_gained : ℤ :=
                (effective_last_rank : ℤ) - (estimated_new_rank : ℤ)
              if positions_gained ≤ 0 then r
              else
                ({ track_slug := pt.track_slug, track_name := pt.track_name,
                   vehicle := pt.vehicle, category := pt.category,
                   laps := pt.laps, is_na := true,
                   current_rank := effective_last_rank, current_time_cs := 0,
                   new_rank := estimated_new_rank,
                   target_time_cs := (worst_real.time_cs : ℤ),
                   opponent_time_cs := worst_real.time_cs,
                   positions_gained := positions_gained,
                   af_improvement := (positions_gained : ℚ) / (total_tracks : ℚ),
                   time_delta_cs := 0, efficiency := ⊤ } :: r.1, r.2)
        else
          let fp := find_player_position pt real_entries player_username
          let player_rank := fp.1
          let player_time_cs := fp.2.1
          let above_entries := fp.2.2
          if above_entries = [] ∨ player_rank ≤ 1 then r
          else
            let all_targets := List.range' 1 above_entries.length
            let tiers := compute_tiers above_entries player_time_cs total_tracks all_targets
            if tiers = [] then r
            else
              let options := tiers.map (fun tier =>
                (tier.positions_gained, tier.time_delta_cs,
                  mkRankedItem pt player_rank player_time_cs tier))
              (r.1, options :: r.2)

/-! ## The multi-choice knapsack dynamic program of
`optimizer.compute_overtake_plan` -/

/-- A difficulty-weighted option `(positions, weighted cost, plan_item)`.
The Python weighted cost is the float `time_delta * exp(...)`; every float is
a rational, so weighted costs live in `ℚ`. -/
abbrev WOpt := ℕ × ℚ × OvertakePlanItem

/-- `INF`-aware cost addition: `none` models float `INF`. -/
def optAdd : Option ℚ → ℚ → Option ℚ
  | none, _ => none
  | some a, c => some (a + c)

/-- `INF`-aware strict comparison, exactly as float `<` behaves on the DP
values: `INF < x` is false, `finite < INF` is true. -/
def optLtB : Option ℚ → Option ℚ → Bool
  | none, _ => false
  | some _, none => true
  | some a, some b => decide (a < b)

/-- The first loop of a DP round: `new_dp` starts all-`INF` and copies every
finite `dp[p]` with a skip pointer `(-1, p)` (the skip option is modelled as
`none`). -/
def initRow (cap : ℕ) (dp : ℕ → Option ℚ) :
    (ℕ → Option ℚ) × (ℕ → Option (Option ℕ × ℕ)) :=
  (fun p => if p < cap then dp p else none,
   fun p => if p < cap ∧ (dp p).isSome then some (none, p) else none)

/-- One option's inner loop: for `p in range(pos, cap)`, replace `new_dp[p]`
by `dp[p-pos] + cost` exactly when that value is strictly smaller, recording
the pointer `(opt_idx, p-pos)`. -/
def applyOption (cap : ℕ) (dp : ℕ → Option ℚ) (opt_idx pos : ℕ) (cost : ℚ)
    (nd : ℕ → Option ℚ) (np : ℕ → Option (Option ℕ × ℕ)) :
    (ℕ → Option ℚ) × (ℕ → Option (Option ℕ × ℕ)) :=
  (fun p => if pos ≤ p ∧ p < cap ∧ optLtB (optAdd (dp (p - pos)) cost) (nd p) then
      optAdd (dp (p - pos)) cost
    else nd p,
   fun p => if pos ≤ p ∧ p < cap ∧ optLtB (optAdd (dp (p - pos)) cost) (nd p) then
      some (some opt_idx, p - pos)
    else np p)

/-- `for opt_idx, (pos, cost, _item) in enumerate(group)`. -/
def applyOptions (cap : ℕ) (dp : ℕ → Option ℚ) :
    ℕ → List WOpt →
    (ℕ → Option ℚ) × (ℕ → Option (Option ℕ × ℕ)) →
    (ℕ → Option ℚ) × (ℕ → Option (Option ℕ × ℕ))
  | _, [], acc => acc
  | i, o :: rest, acc =>
      applyOptions cap dp (i + 1) rest (applyOption cap dp i o.1 o.2.1 acc.1 acc.2)

/-- One full DP round over a group: copy loop, then the option loops. -/
def dpRowStep (cap : ℕ) (dp : ℕ → Option ℚ) (g : List WOpt) :
    (ℕ → Option ℚ) × (ℕ → Option (Option ℕ × ℕ)) :=
  applyOptions cap dp 0 g (initRow cap dp)

/-- `dp = [INF]*cap; dp[0] = 0`. -/
def dpInit : ℕ → Option ℚ := fun p => if p = 0 then some 0 else none

/-- The group loop of the DP: thread the cost row through the groups and
collect one pointer row per group (in group order). -/
def runDP (cap : ℕ) :
    (ℕ → Option ℚ) → List (List WOpt) →
    (ℕ → Option ℚ) × List (ℕ → Option (Option ℕ × ℕ))
  | dp, [] => (dp, [])
  | dp, g :: gs =>
      let row := dpRowStep cap dp g
      let rest := runDP cap row.1 gs
      (rest.1, row.2 :: rest.2)

/-- `for p in range(remaining, cap): if dp[p] < best_cost: ...` — the first
state attaining the minimum cost wins. -/
def bestStateAux (dp : ℕ → Option ℚ) : ℕ → ℕ → Option (ℕ × ℚ) → Option (ℕ × ℚ)
  | _, 0, best => best
  | p, n + 1, best =>
      bestStateAux dp (p + 1) n
        (match dp p, best with
         | some c, none => some (p, c)
         | some c, some bb => if c < bb.2 then (p, c) else bb
         | none, bb => bb)

/-- Select the minimum-cost state among position counts in
`[remaining, cap)`; `none` models `best_p is None` (all `INF`). -/
def bestState (dp : ℕ → Option ℚ) (lo cap : ℕ) : Option (ℕ × ℚ) :=
  bestStateAux dp lo (cap - lo) none

/-- The backtracking loop over the reversed per-group pointer rows.  The
result is the per-group choice list in forward group order (`none` = group
skipped) together with the final position count; `none` models a failed
dictionary/index lookup (which cannot occur on rows produced by the DP). -/
def backtrackAux :
    List (List WOpt × (ℕ → Option (Option ℕ × ℕ))) → ℕ →
    Option (List (Option WOpt) × ℕ)
  | [], p => some ([], p)
  | gp :: rest, p =>
      match gp.2 p with
      | none => none
      | some ptr =>
          match backtrackAux rest ptr.2 with
          | none => none
          | some selp =>
              match ptr.1 with
              | none => some (selp.1 ++ [none], selp.2)
              | some i =>
                  match gp.1.get? i with
                  | none => none
                  | some o => some (selp.1 ++ [some o], selp.2)

/-- The selected plan items of a choice list, in forward group order. -/
def selItems (sel : List (Option WOpt)) : List OvertakePlanItem :=
  sel.filterMap (fun o => o.map (fun x => x.2.2))

/-- Positions gained by a choice list. -/
def selPos (sel : List (Option WOpt)) : ℕ :=
  (sel.map (fun o => (o.map (fun x => x.1)).getD 0)).sum

/-- Weighted cost of a choice list. -/
def selCost (sel : List (Option WOpt)) : ℚ :=
  (sel.map (fun o => (o.map (fun x => x.2.1)).getD 0)).sum

/-- Run the DP, pick the best state at or above `lo`, and backtrack it into a
choice list. -/
def dpSolve (cap lo : ℕ) (gs : List (List WOpt)) : Option (List (Option WOpt)) :=
  let r := runDP cap dpInit gs
  match bestState r.1 lo cap with
  | none => none
  | some bc => (backtrackAux ((gs.zip r.2).reverse) bc.1).map Prod.fst

/-! ## Cost-minimizing overtake planner (`optimizer.compute_overtake_plan`) -/

/-- The guard constant `1e-9` of `positions_needed = ceil(af_gap * total_tracks + 1e-9)`. -/
def EPS : ℚ := 1 / 1000000000

/-- `items.sort(key=lambda x: x.af_improvement, reverse=True)` — Python's
stable sort, modelled by insertion sort (the verified claims depend on the
result only up to permutation). -/
def sortByAfDesc (items : List OvertakePlanItem) : List OvertakePlanItem :=
  List.insertionSort (fun a b => b.af_improvement ≤ a.af_improvement) items

/-- `max(pos for pos, _, _ in g)` — Python's `max` of the (never empty)
positions of a group; 0 is a junk value for the impossible empty case. -/
def groupMaxPos (g : List RawOpt) : ℕ := (g.map (fun o => o.1)).foldr max 0

/-- The difficulty weighting pass: each option's cost becomes
`cost * W(item.current_rank, item.new_rank)` where `W` stands for the float
computation of `_difficulty_weight` (an abstract rational-valued weight
function in this embedding; every float value is rational). -/
def weightGroups (W : ℕ → ℕ → ℚ) (groups : List (List RawOpt)) : List (List WOpt) :=
  groups.map (fun g => g.map (fun o =>
    (o.1, (o.2.1 : ℚ) * W o.2.2.current_rank o.2.2.new_rank, o.2.2)))

/-- `positions_needed = math.ceil(af_gap * total_tracks + 1e-9)`. -/
def positionsNeededOf (current_af target_af : ℚ) (total_tracks : ℕ) : ℤ :=
  ⌈(current_af - target_af) * (total_tracks : ℚ) + EPS⌉

/-- `na_positions = sum(it.positions_gained for it in na_items)`. -/
def naPositionsOf (player_times : List PlayerTrackTime)
    (leaderboards : List (String × List LeaderboardEntry))
    (total_tracks : ℕ) (player_username : String) : ℤ :=
  (((build_overtake_groups player_times leaderboards total_tracks player_username).1).map
    (fun it => it.positions_gained)).sum

/-- `remaining = positions_needed - na_positions`. -/
def remainingOf (player_times : List PlayerTrackTime)
    (leaderboards : List (String × List LeaderboardEntry))
    (current_af target_af : ℚ) (total_tracks : ℕ) (player_username : String) : ℤ :=
  positionsNeededOf current_af target_af total_tracks -
    naPositionsOf player_times leaderboards total_tracks player_username

/-- `max_positions = sum(max(pos for pos, _, _ in g) for g in groups)`. -/
def maxPositionsOf (player_times : List PlayerTrackTime)
    (leaderboards : List (String × List LeaderboardEntry))
    (total_tracks : ℕ) (player_username : String) : ℕ :=
  (((build_overtake_groups player_times leaderboards total_tracks player_username).2).map
    groupMaxPos).sum

/-- The difficulty-weighted groups handed to the DP. -/
def weightedGroupsOf (W : ℕ → ℕ → ℚ) (player_times : List PlayerTrackTime)
    (leaderboards : List (String × List LeaderboardEntry))
    (total_tracks : ℕ) (player_username : String) : List (List WOpt) :=
  weightGroups W
    (build_overtake_groups player_times leaderboards total_tracks player_username).2

/-- `optimizer.compute_overtake_plan`, parametrized by the weight function
`W`.  The `RuntimeError` raise is `Except.error`; every other outcome is
`Except.ok`.  The named helper definitions above are verbatim the values of
the function's local variables. -/
def compute_overtake_plan (W : ℕ → ℕ → ℚ)
    (player_times : List PlayerTrackTime)
    (leaderboards : List (String × List LeaderboardEntry))
    (current_af target_af : ℚ) (total_tracks : ℕ)
    (player_username target_username : String) : Except String OvertakePlan :=
  let af_gap := current_af - target_af
  if af_gap ≤ 0 then
    Except.ok
      { target_username := target_username, target_af := target_af,
        current_af := current_af, af_gap := 0,
        total_positions_needed := 0, total_positions_gained := 0,
        total_time_investment_cs := 0, new_af := current_af, items := [],
        feasible := true }
  else
    let positions_needed : ℤ := positionsNeededOf current_af target_af total_tracks
    let na_items :=
      (build_overtake_groups player_times leaderboards total_tracks player_username).1
    let na_positions : ℤ :=
      naPositionsOf player_times leaderboards total_tracks player_username
    let remaining : ℤ := positions_needed - na_positions
    if remaining ≤ 0 then
      Except.ok
        { target_username := target_username, target_af := target_af,
          current_af := current_af, af_gap := af_gap,
          total_positions_needed := positions_needed,
          total_positions_gained := na_positions,
          total_time_investment_cs := 0,
          new_af := current_af - (na_positions : ℚ) / (total_tracks : ℚ),
          items := sortByAfDesc na_items, feasible := true }
    else
      let max_positions : ℕ :=
        maxPositionsOf player_times leaderboards total_tracks player_username
      if (max_positions : ℤ) < remaining then
        Except.ok
          { target_username := target_username, target_af := target_af,
            current_af := current_af, af_gap := af_gap,
            total_positions_needed := positions_needed,
            total_positions_gained := na_positions,
            total_time_investment_cs := 0,
            new_af := current_af - (na_positions : ℚ) / (total_tracks : ℚ),
            items := na_items, feasible := false }
      else
        let weighted_groups :=
          weightedGroupsOf W player_times leaderboards total_tracks player_username
        let cap := max_positions + 1
        match dpSolve cap remaining.toNat weighted_groups with
        | none => Except.error "DP found no solution despite feasibility check passing"
        | some sel =>
            let ranked_items := (selItems sel).reverse
            let all_items := sortByAfDesc (na_items ++ ranked_items)
            let total_gained : ℤ :=
              na_positions + (ranked_items.map (fun it => it.positions_gained)).sum
            let total_time : ℤ := (ranked_items.map (fun it => it.time_delta_cs)).sum
            Except.ok
              { target_username := target_username, target_af := target_af,
                current_af := current_af, af_gap := af_gap,
                total_positions_needed := positions_needed,
                total_positions_gained := total_gained,
                total_time_investment_cs := total_time,
                new_af := current_af - (total_gained : ℚ) / (total_tracks : ℚ),
                items := all_items, feasible := true }

/-! ## Track-minimizing overtake planner
(`optimizer.compute_overtake_plan_min_tracks`) -/

/-- `max(group, key=lambda x: x[0] / _difficulty_weight(...))` — Python `max`
returns the first maximal element, so later elements replace the running best
only on strict improvement. -/
def pickBestOption (W : ℕ → ℕ → ℚ) : List RawOpt → RawOpt → RawOpt
  | [], best => best
  | o :: rest, best =>
      pickBestOption W rest
        (if (best.1 : ℚ) / W best.2.2.current_rank best.2.2.new_rank <
            (o.1 : ℚ) / W o.2.2.current_rank o.2.2.new_rank then o else best)

/-- The greedy consumption loop: take candidates until the requirement is
met (checked *before* each take, exactly as the `break` in the source). -/
def greedyTake (positions_needed : ℤ) :
    List OvertakePlanItem → List OvertakePlanItem × ℤ × ℤ →
    List OvertakePlanItem × ℤ × ℤ
  | [], acc => acc
  | item :: rest, acc =>
      if positions_needed ≤ acc.2.1 then acc
      else greedyTake positions_needed rest
        (acc.1 ++ [item], acc.2.1 + item.positions_gained, acc.2.2 + item.time_delta_cs)

/-- `optimizer.compute_overtake_plan_min_tracks`, parametrized by the weight
function `W` like the cost-minimizing planner. -/
def compute_overtake_plan_min_tracks (W : ℕ → ℕ → ℚ)
    (player_times : List PlayerTrackTime)
    (leaderboards : List (String × List LeaderboardEntry))
    (current_af target_af : ℚ) (total_tracks : ℕ)
    (player_username target_username : String) : OvertakePlan :=
  let af_gap := current_af - target_af
  if af_gap ≤ 0 then
    { target_username := target_username, target_af := target_af,
      current_af := current_af, af_gap := 0,
      total_positions_needed := 0, total_positions_gained := 0,
      total_time_investment_cs := 0, new_af := current_af, items := [],
      feasible := true }
  else
    let positions_needed : ℤ := ⌈af_gap * (total_tracks : ℚ) + EPS⌉
    let bg := build_overtake_groups player_times leaderboards total_tracks player_username
    let na_items := bg.1
    let groups := bg.2
    let candidates :=
      (groups.map (fun g => (pickBestOption W g.tail (g.headD default)).2.2)) ++ na_items
    let ordered := List.insertionSort
      (fun a b => b.positions_gained ≤ a.positions_gained) candidates
    let taken := greedyTake positions_needed ordered ([], 0, 0)
    let items := taken.1
    let total_positions := taken.2.1
    let total_time := taken.2.2
    let feasible := positions_needed ≤ total_positions
    { target_username := target_username, target_af := target_af,
      current_af := current_af, af_gap := af_gap,
      total_positions_needed := positions_needed,
      total_positions_gained := total_positions,
      total_time_investment_cs := total_time,
      new_af := current_af - (total_positions : ℚ) / (total_tracks : ℚ),
      items := sortByAfDesc items, feasible := feasible }

/-! ## The N/A rule always yields zero gain (C8) and safe ranks (C9) -/

/-- Helper: the N/A items list built by `_build_overtake_groups` is empty for
every input, because the computed `positions_gained` is always
`(worst.rank + 1) - (worst.rank + 1) = 0` and the `<= 0` filter drops it. -/
theorem build_overtake_groups_na_empty :
    ∀ (player_times : List PlayerTrackTime)
      (leaderboards : List (String × List LeaderboardEntry))
      (total_tracks : ℕ) (player_username : String),
      (build_overtake_groups player_times leaderboards total_tracks player_username).1 = [] := by
  intro pts
  induction pts with
  | nil => intro lbs tt user; rfl
  | cons pt rest ih =>
      intro lbs tt user
      simp only [build_overtake_groups]
      split
      · exact ih lbs tt user
      · split
        · split
          · exact ih lbs tt user
          · rename_i worst heq
            split
            · exact ih lbs tt user
            · rename_i hpos
              exact absurd (by omega : ((worst.rank + 1 : ℤ) - (worst.rank + 1 : ℤ)) ≤ 0) hpos
        · split
          · exact ih lbs tt user
          · split
            · exact ih lbs tt user
            · exact ih lbs tt user

/-- **C8.**  For every N/A variant with at least one real entry, the
synthetic N/A computation puts the player's effective rank and the estimated
new rank both at `worst.rank + 1`, so the tier's `positions_gained` is exactly
0 and its `af_improvement` is 0; consequently the plan-group builder's
`positions_gained <= 0` filter drops every N/A item, and the `na_items` list
consumed by both overtake planners is empty on every input. -/
theorem na_opportunity_zero_gain :
    (∀ (pt : PlayerTrackTime) (real_entries : List LeaderboardEntry)
       (total_tracks : ℕ) (h : real_entries ≠ []),
       (compute_na_opportunity pt real_entries total_tracks).current_rank =
         (real_entries.getLast h).rank + 1 ∧
       (compute_na_opportunity pt real_entries total_tracks).tiers.map
           (fun t => (t.target_rank, t.positions_gained, t.af_improvement)) =
         [((real_entries.getLast h).rank + 1, 0, 0)]) ∧
    (∀ (player_times : List PlayerTrackTime)
       (leaderboards : List (String × List LeaderboardEntry))
       (total_tracks : ℕ) (player_username : String),
       (build_overtake_groups player_times leaderboards total_tracks player_username).1 = []) := by
  constructor
  · intro pt real_entries total_tracks h
    rw [compute_na_opportunity, List.getLast?_eq_getLast _ h]
    refine ⟨rfl, ?_⟩
    simp [Nat.sub_self]
  · exact build_overtake_groups_na_empty

/-- Witness for `na_opportunity_zero_gain` at a one-entry leaderboard. -/
theorem na_opportunity_zero_gain_witness :
    ([(⟨3, "x", "x", 70, false⟩ : LeaderboardEntry)] ≠ ([] : List LeaderboardEntry)) ∧
    (compute_na_opportunity ⟨"t", "T", "car", "standard", "3-laps", 0, 0, true⟩
        [⟨3, "x", "x", 70, false⟩] 5).tiers.map
        (fun t => (t.target_rank, t.positions_gained, t.af_improvement)) = [(4, 0, 0)] :=
  ⟨by decide,
    ((na_opportunity_zero_gain.1 ⟨"t", "T", "car", "standard", "3-laps", 0, 0, true⟩
      [⟨3, "x", "x", 70, false⟩] 5 (by decide)).2)⟩

/-- Helper for C9: every option of every ranked group carries the player's
rank on that variant, and variants with rank ≤ 1 (or an empty above-set) are
skipped, so every option's `current_rank` is at least 2. -/
theorem build_overtake_groups_rank_aux :
    ∀ (player_times : List PlayerTrackTime)
      (leaderboards : List (String × List LeaderboardEntry))
      (total_tracks : ℕ) (player_username : String),
      ∀ g ∈ (build_overtake_groups player_times leaderboards total_tracks player_username).2,
        ∀ o ∈ g, 2 ≤ o.2.2.current_rank := by
  intro pts
  induction pts with
  | nil => intro lbs tt user g hg; simp [build_overtake_groups] at hg
  | cons pt rest ih =>
      intro lbs tt user g hg
      simp only [build_overtake_groups] at hg
      split at hg
      · exact ih lbs tt user g hg
      · split at hg
        · split at hg
          · exact ih lbs tt user g hg
          · split at hg
            · exact ih lbs tt user g hg
            · exact ih lbs tt user g hg
        · rename_i hna
          split at hg
          · exact ih lbs tt user g hg
          · rename_i hskip
            split at hg
            · exact ih lbs tt user g hg
            · rcases List.mem_cons.mp hg with he | hrest
              · intro o ho
                subst he
                rcases List.mem_map.mp ho with ⟨tier, htier, ho2⟩
                have hrank : 1 <
                    (find_player_position pt
                      (((lbs.lookup (lbKey pt)).getD []).filter
                        (fun e => !e.is_default)) user).1 := by
                  rcases not_or.mp hskip with ⟨h1, h2⟩
                  omega
                rw [← ho2]
                exact hrank
              · exact ih lbs tt user g hrest

/-- The constant weight function used to instantiate witnesses. -/
def Wone : ℕ → ℕ → ℚ := fun _ _ => 1

/-- **C9.**  The division `target_rank / current_rank` inside
`_difficulty_weight` is always applied to an `OvertakePlanItem` with
`current_rank ≥ 2`, in both planners: every option of every ranked group —
and hence of every difficulty-weighted group — carries a `current_rank ≥ 2`,
because variants with rank ≤ 1 or an empty above-set are skipped before group
construction. -/
theorem overtake_current_rank_safe (W : ℕ → ℕ → ℚ)
    (player_times : List PlayerTrackTime)
    (leaderboards : List (String × List LeaderboardEntry))
    (total_tracks : ℕ) (player_username : String) :
    (∀ g ∈ (build_overtake_groups player_times leaderboards total_tracks player_username).2,
       ∀ o ∈ g, 2 ≤ o.2.2.current_rank) ∧
    (∀ g ∈ weightGroups W
        (build_overtake_groups player_times leaderboards total_tracks player_username).2,
       ∀ o ∈ g, 2 ≤ o.2.2.current_rank) := by
  refine ⟨build_overtake_groups_rank_aux player_times leaderboards total_tracks
    player_username, ?_⟩
  intro g hg o ho
  rcases List.mem_map.mp hg with ⟨g0, hg0, rfl⟩
  rcases List.mem_map.mp ho with ⟨o0, ho0, rfl⟩
  exact build_overtake_groups_rank_aux player_times leaderboards total_tracks
    player_username g0 hg0 o0 ho0

/-- Witness for `overtake_current_rank_safe` on the concrete scenario. -/
theorem overtake_current_rank_safe_witness :
    ((build_overtake_groups pts1 lbs1 1 "me").2.getD 0 []) ∈
      (build_overtake_groups pts1 lbs1 1 "me").2 ∧
    (((build_overtake_groups pts1 lbs1 1 "me").2.getD 0 []).getD 0 default) ∈
      ((build_overtake_groups pts1 lbs1 1 "me").2.getD 0 []) ∧
    2 ≤ ((((build_overtake_groups pts1 lbs1 1 "me").2.getD 0 []).getD 0
      default)).2.2.current_rank :=
  ⟨by with_unfolding_all decide, by with_unfolding_all decide,
    (overtake_current_rank_safe Wone pts1 lbs1 1 "me").1
      ((build_overtake_groups pts1 lbs1 1 "me").2.getD 0 [])
      (by with_unfolding_all decide)
      (((build_overtake_groups pts1 lbs1 1 "me").2.getD 0 []).getD 0 default)
      (by with_unfolding_all decide)⟩

/-! ## Correctness of the DP (multi-choice knapsack) -/

/-- A valid multi-choice selection: one entry per group, each either `none`
(group skipped) or one of the group's options. -/
def ValidSel (gs : List (List WOpt)) (sel : List (Option WOpt)) : Prop :=
  List.Forall₂ (fun g o => o = none ∨ ∃ x ∈ g, o = some x) gs sel

theorem optLtB_none_left (x : Option ℚ) : optLtB none x = false := rfl

theorem optAdd_some {a : Option ℚ} {c q : ℚ} (h : optAdd a c = some q) :
    ∃ a0, a = some a0 ∧ q = a0 + c := by
  cases a with
  | none => simp [optAdd] at h
  | some a0 => exact ⟨a0, rfl, by simpa [optAdd] using h.symm⟩

theorem optLtB_true {a b : Option ℚ} (h : optLtB a b = true) :
    ∃ a0, a = some a0 ∧ ∀ b0, b = some b0 → a0 < b0 := by
  cases a with
  | none => simp [optLtB] at h
  | some a0 =>
      refine ⟨a0, rfl, fun b0 hb => ?_⟩
      subst hb
      simpa [optLtB] using h

theorem optLtB_false {a0 : ℚ} {b : Option ℚ} (h : optLtB (some a0) b = false) :
    ∃ b0, b = some b0 ∧ b0 ≤ a0 := by
  cases b with
  | none => simp [optLtB] at h
  | some b0 => exact ⟨b0, rfl, by simpa [optLtB, not_lt] using h⟩

/-- The pointer/value invariant of one DP round: every finite cell of the new
row is either a copy of the old row with a skip pointer, or an improvement by
an option of the group with the matching pointer. -/
def RowOK (cap : ℕ) (dp nd : ℕ → Option ℚ) (np : ℕ → Option (Option ℕ × ℕ))
    (g : List WOpt) : Prop :=
  ∀ p c, nd p = some c →
    (p < cap ∧ dp p = some c ∧ np p = some (none, p)) ∨
    (∃ i o, g.get? i = some o ∧ o.1 ≤ p ∧ p < cap ∧
      (∃ c0, dp (p - o.1) = some c0 ∧ c = c0 + o.2.1) ∧
      np p = some (some i, p - o.1))

theorem initRow_rowOK (cap : ℕ) (dp : ℕ → Option ℚ) (g : List WOpt) :
    RowOK cap dp (initRow cap dp).1 (initRow cap dp).2 g := by
  intro p c hc
  simp only [initRow] at hc ⊢
  split at hc
  · rename_i hlt
    exact Or.inl ⟨hlt, hc, by simp [hlt, hc]⟩
  · exact absurd hc (by simp)

theorem applyOption_rowOK {cap : ℕ} {dp nd : ℕ → Option ℚ}
    {np : ℕ → Option (Option ℕ × ℕ)} {g : List WOpt} {i : ℕ} {o : WOpt}
    (hio : g.get? i = some o) (hok : RowOK cap dp nd np g) :
    RowOK cap dp (applyOption cap dp i o.1 o.2.1 nd np).1
      (applyOption cap dp i o.1 o.2.1 nd np).2 g := by
  intro p c hc
  simp only [applyOption] at hc ⊢
  split at hc
  · rename_i hcond
    rcases optAdd_some hc with ⟨c0, hdp, hcq⟩
    refine Or.inr ⟨i, o, hio, hcond.1, hcond.2.1, ⟨c0, hdp, hcq⟩, ?_⟩
    rw [if_pos hcond]
  · rename_i hcond
    rcases hok p c hc with hskip | ⟨j, o2, hj, h1, h2, h3, h4⟩
    · exact Or.inl ⟨hskip.1, hskip.2.1, by rw [if_neg hcond]; exact hskip.2.2⟩
    · exact Or.inr ⟨j, o2, hj, h1, h2, h3, by rw [if_neg hcond]; exact h4⟩

theorem applyOptions_rowOK {cap : ℕ} {dp : ℕ → Option ℚ} {g : List WOpt} :
    ∀ (rest : List WOpt) (i : ℕ)
      (acc : (ℕ → Option ℚ) × (ℕ → Option (Option ℕ × ℕ))),
      (∀ j o, rest.get? j = some o → g.get? (i + j) = some o) →
      RowOK cap dp acc.1 acc.2 g →
      RowOK cap dp (applyOptions cap dp i rest acc).1
        (applyOptions cap dp i rest acc).2 g := by
  intro rest
  induction rest with
  | nil => intro i acc _ hok; exact hok
  | cons o rest ih =>
      intro i acc hidx hok
      simp only [applyOptions]
      refine ih (i + 1) _ (fun j o2 hj => ?_) ?_
      · have := hidx (j + 1) o2 (by simpa using hj)
        simpa [Nat.add_assoc, Nat.add_comm 1 j] using this
      · exact applyOption_rowOK (by simpa using hidx 0 o rfl) hok

theorem dpRowStep_rowOK (cap : ℕ) (dp : ℕ → Option ℚ) (g : List WOpt) :
    RowOK cap dp (dpRowStep cap dp g).1 (dpRowStep cap dp g).2 g := by
  refine applyOptions_rowOK g 0 _ (fun j o hj => by simpa using hj) ?_
  exact initRow_rowOK cap dp g

theorem applyOption_le {cap : ℕ} {dp : ℕ → Option ℚ} {i pos : ℕ} {cost : ℚ}
    {nd : ℕ → Option ℚ} {np : ℕ → Option (Option ℕ × ℕ)} {p : ℕ} {c : ℚ}
    (h : nd p = some c) :
    ∃ c2 ≤ c, (applyOption cap dp i pos cost nd np).1 p = some c2 := by
  simp only [applyOption]
  split
  · rename_i hcond
    rcases optLtB_true hcond.2.2 with ⟨a0, ha, hlt⟩
    exact ⟨a0, le_of_lt (hlt c h), ha⟩
  · exact ⟨c, le_refl c, h⟩

theorem applyOptions_le {cap : ℕ} {dp : ℕ → Option ℚ} :
    ∀ (rest : List WOpt) (i : ℕ)
      (acc : (ℕ → Option ℚ) × (ℕ → Option (Option ℕ × ℕ))) (p : ℕ) (c : ℚ),
      acc.1 p = some c →
      ∃ c2 ≤ c, (applyOptions cap dp i rest acc).1 p = some c2 := by
  intro rest
  induction rest with
  | nil => intro i acc p c h; exact ⟨c, le_refl c, h⟩
  | cons o rest ih =>
      intro i acc p c h
      rcases @applyOption_le cap dp i o.1 o.2.1 acc.1 acc.2 p c h with ⟨c1, hc1, h1⟩
      rcases ih (i + 1) _ p c1 h1 with ⟨c2, hc2, h2⟩
      exact ⟨c2, le_trans hc2 hc1, h2⟩

theorem applyOption_update_le {cap : ℕ} {dp : ℕ → Option ℚ} {i pos : ℕ}
    {cost : ℚ} {nd : ℕ → Option ℚ} {np : ℕ → Option (Option ℕ × ℕ)}
    {p : ℕ} {c0 : ℚ} (hpos : pos ≤ p) (hcap : p < cap)
    (hdp : dp (p - pos) = some c0) :
    ∃ c2 ≤ c0 + cost, (applyOption cap dp i pos cost nd np).1 p = some c2 := by
  simp only [applyOption]
  split
  · exact ⟨c0 + cost, le_refl _, by rw [hdp]; rfl⟩
  · rename_i hcond
    have hfalse : optLtB (optAdd (dp (p - pos)) cost) (nd p) = false := by
      rcases Bool.eq_false_or_eq_true (optLtB (optAdd (dp (p - pos)) cost) (nd p)) with h | h
      · exact absurd ⟨hpos, hcap, h⟩ hcond
      · exact h
    rw [hdp] at hfalse
    rcases optLtB_false (by simpa [optAdd] using hfalse) with ⟨b0, hb, hble⟩
    exact ⟨b0, hble, hb⟩

theorem applyOptions_opt_le {cap : ℕ} {dp : ℕ → Option ℚ} {p : ℕ} {c0 : ℚ} :
    ∀ (rest : List WOpt) (i : ℕ)
      (acc : (ℕ → Option ℚ) × (ℕ → Option (Option ℕ × ℕ))) (o : WOpt),
      o ∈ rest → o.1 ≤ p → p < cap → dp (p - o.1) = some c0 →
      ∃ c2 ≤ c0 + o.2.1, (applyOptions cap dp i rest acc).1 p = some c2 := by
  intro rest
  induction rest with
  | nil => intro i acc o ho; exact absurd ho (List.not_mem_nil o)
  | cons x rest ih =>
      intro i acc o ho hpos hcap hdp
      rcases List.mem_cons.mp ho with he | hrest
      · subst he
        simp only [applyOptions]
        rcases @applyOption_update_le cap dp i o.1 o.2.1 acc.1 acc.2 p c0
          hpos hcap hdp with ⟨c1, hc1, h1⟩
        rcases applyOptions_le rest (i + 1) _ p c1 h1 with ⟨c2, hc2, h2⟩
        exact ⟨c2, le_trans hc2 hc1, h2⟩
      · simp only [applyOptions]
        exact ih (i + 1) _ o hrest hpos hcap hdp

theorem dpRowStep_skip_le {cap : ℕ} {dp : ℕ → Option ℚ} {g : List WOpt}
    {p : ℕ} {c : ℚ} (hcap : p < cap) (h : dp p = some c) :
    ∃ c2 ≤ c, (dpRowStep cap dp g).1 p = some c2 := by
  refine applyOptions_le g 0 _ p c ?_
  simp [initRow, hcap, h]

theorem dpRowStep_opt_le {cap : ℕ} {dp : ℕ → Option ℚ} {g : List WOpt}
    {o : WOpt} {p : ℕ} {c0 : ℚ} (ho : o ∈ g) (hpos : o.1 ≤ p) (hcap : p < cap)
    (hdp : dp (p - o.1) = some c0) :
    ∃ c2 ≤ c0 + o.2.1, (dpRowStep cap dp g).1 p = some c2 :=
  applyOptions_opt_le g 0 _ o ho hpos hcap hdp


@[simp] theorem selPos_nil : selPos [] = 0 := rfl

@[simp] theorem selPos_cons_none (sel : List (Option WOpt)) :
    selPos (none :: sel) = selPos sel := by simp [selPos]

@[simp] theorem selPos_cons_some (x : WOpt) (sel : List (Option WOpt)) :
    selPos (some x :: sel) = x.1 + selPos sel := by simp [selPos]

@[simp] theorem selCost_nil : selCost [] = 0 := rfl

@[simp] theorem selCost_cons_none (sel : List (Option WOpt)) :
    selCost (none :: sel) = selCost sel := by simp [selCost]

@[simp] theorem selCost_cons_some (x : WOpt) (sel : List (Option WOpt)) :
    selCost (some x :: sel) = x.2.1 + selCost sel := by simp [selCost]

@[simp] theorem selItems_nil : selItems [] = [] := rfl

@[simp] theorem selItems_cons_none (sel : List (Option WOpt)) :
    selItems (none :: sel) = selItems sel := by simp [selItems]

@[simp] theorem selItems_cons_some (x : WOpt) (sel : List (Option WOpt)) :
    selItems (some x :: sel) = x.2.2 :: selItems sel := by simp [selItems]

theorem backtrackAux_append :
    ∀ (l1 l2 : List (List WOpt × (ℕ → Option (Option ℕ × ℕ)))) (p : ℕ),
      backtrackAux (l1 ++ l2) p =
        (backtrackAux l1 p).bind (fun s1 =>
          (backtrackAux l2 s1.2).map (fun s2 => (s2.1 ++ s1.1, s2.2))) := by
  intro l1
  induction l1 with
  | nil =>
      intro l2 p
      simp only [List.nil_append, backtrackAux, Option.some_bind]
      cases h : backtrackAux l2 p with
      | none => rfl
      | some s2 => simp
  | cons gp l1 ih =>
      intro l2 p
      cases h : gp.2 p with
      | none => simp [backtrackAux, h]
      | some ptr =>
          simp only [List.cons_append, backtrackAux, h, List.append_eq]
          rw [ih l2 ptr.2]
          cases h1 : backtrackAux l1 ptr.2 with
          | none => rfl
          | some s1 =>
              cases hp : ptr.1 with
              | none =>
                  cases h2 : backtrackAux l2 s1.2 with
                  | none => simp [h2]
                  | some s2 => simp [h2, List.append_assoc]
              | some i =>
                  cases hg : gp.1.get? i with
                  | none =>
                      rw [List.get?_eq_getElem?] at hg
                      cases h2 : backtrackAux l2 s1.2 with
                      | none => simp [h2, hg]
                      | some s2 => simp [h2, hg]
                  | some o =>
                      rw [List.get?_eq_getElem?] at hg
                      cases h2 : backtrackAux l2 s1.2 with
                      | none => simp [h2, hg]
                      | some s2 => simp [h2, hg, List.append_assoc]

theorem rowOK_backtrack {cap : ℕ} {dp nd : ℕ → Option ℚ}
    {np : ℕ → Option (Option ℕ × ℕ)} {g : List WOpt} {p : ℕ} {c : ℚ}
    (hok : RowOK cap dp nd np g) (h : nd p = some c) :
    ∃ cho pf cf, backtrackAux [(g, np)] p = some ([cho], pf) ∧ dp pf = some cf ∧
      ((cho = none ∧ pf = p ∧ cf = c) ∨
       (∃ x ∈ g, cho = some x ∧ x.1 ≤ p ∧ pf = p - x.1 ∧ c = cf + x.2.1)) := by
  rcases hok p c h with ⟨hcap, hdp, hnp⟩ | ⟨i, o, hget, hpos, hcap, ⟨c0, hdp, hcq⟩, hnp⟩
  · exact ⟨none, p, c, by simp [backtrackAux, hnp], hdp, Or.inl ⟨rfl, rfl, rfl⟩⟩
  · have hmem := List.get?_mem hget
    rw [List.get?_eq_getElem?] at hget
    refine ⟨some o, p - o.1, c0, ?_, hdp, Or.inr ⟨o, hmem, rfl, hpos, rfl, hcq⟩⟩
    simp [backtrackAux, hnp, hget]

theorem runDP_backtrack (cap : ℕ) :
    ∀ (gs : List (List WOpt)) (dp : ℕ → Option ℚ) (p : ℕ) (c : ℚ),
      (runDP cap dp gs).1 p = some c →
      ∃ sel p0 c0,
        backtrackAux ((gs.zip (runDP cap dp gs).2).reverse) p = some (sel, p0) ∧
        dp p0 = some c0 ∧ ValidSel gs sel ∧ p0 + selPos sel = p ∧
        c0 + selCost sel = c := by
  intro gs
  induction gs with
  | nil =>
      intro dp p c h
      exact ⟨[], p, c, by simp [runDP, backtrackAux], h, List.Forall₂.nil,
        by simp, by simp⟩
  | cons g gs ih =>
      intro dp p c h
      simp only [runDP] at h ⊢
      rcases ih (dpRowStep cap dp g).1 p c h with ⟨sel, p1, c1, hbt, hdp1, hval, hpos, hcost⟩
      rcases rowOK_backtrack (dpRowStep_rowOK cap dp g) hdp1 with
        ⟨cho, pf, cf, hbt1, hdpf, hcase⟩
      refine ⟨cho :: sel, pf, cf, ?_, hdpf, ?_, ?_, ?_⟩
      · rw [List.zip_cons_cons, List.reverse_cons, backtrackAux_append, hbt]
        simp only [Option.some_bind, hbt1, Option.map_some']
        simp
      · refine List.Forall₂.cons ?_ hval
        rcases hcase with ⟨he, _, _⟩ | ⟨x, hx, he, _⟩
        · exact Or.inl he
        · exact Or.inr ⟨x, hx, he⟩
      · rcases hcase with ⟨he, hpf, _⟩ | ⟨x, hx, he, hle, hpf, _⟩
        · subst he; subst hpf; simpa using hpos
        · subst he; subst hpf
          simp only [selPos_cons_some]
          omega
      · rcases hcase with ⟨he, _, hcf⟩ | ⟨x, hx, he, hle, _, hcf⟩
        · subst he; subst hcf; simpa using hcost
        · subst he
          simp only [selCost_cons_some]
          rw [hcf] at hcost
          linarith [hcost]

theorem runDP_complete (cap : ℕ) :
    ∀ (gs : List (List WOpt)) (sel : List (Option WOpt)),
      ValidSel gs sel →
      ∀ (dp : ℕ → Option ℚ) (p0 : ℕ) (c0 : ℚ), dp p0 = some c0 →
      p0 + selPos sel < cap →
      ∃ c2 ≤ c0 + selCost sel, (runDP cap dp gs).1 (p0 + selPos sel) = some c2 := by
  intro gs sel hval
  induction hval with
  | nil =>
      intro dp p0 c0 h hcap
      exact ⟨c0, by simp, by simpa [runDP] using h⟩
  | @cons g o gs sel rel hrest ih =>
      intro dp p0 c0 h hcap
      rcases rel with he | ⟨x, hx, he⟩
      · subst he
        simp only [selPos_cons_none, selCost_cons_none] at hcap ⊢
        have hp0cap : p0 < cap := by omega
        rcases @dpRowStep_skip_le cap dp g p0 c0 hp0cap h with ⟨c1, hc1, h1⟩
        rcases ih (dpRowStep cap dp g).1 p0 c1 h1 hcap with ⟨c2, hc2, h2⟩
        refine ⟨c2, by linarith, ?_⟩
        simpa [runDP] using h2
      · subst he
        simp only [selPos_cons_some, selCost_cons_some] at hcap ⊢
        have hstep : dp ((p0 + x.1) - x.1) = some c0 := by
          rw [Nat.add_sub_cancel]; exact h
        have hcap1 : p0 + x.1 < cap := by omega
        rcases dpRowStep_opt_le hx (Nat.le_add_left x.1 p0) hcap1 hstep with ⟨c1, hc1, h1⟩
        rcases ih (dpRowStep cap dp g).1 (p0 + x.1) c1 h1 (by omega) with ⟨c2, hc2, h2⟩
        refine ⟨c2, by linarith, ?_⟩
        have harith : p0 + (x.1 + selPos sel) = p0 + x.1 + selPos sel := by omega
        rw [harith]
        simpa [runDP] using h2

theorem bestStateAux_spec (dp : ℕ → Option ℚ) :
    ∀ (n p0 : ℕ) (best : Option (ℕ × ℚ)),
      (bestStateAux dp p0 n best = none →
        best = none ∧ ∀ p, p0 ≤ p → p < p0 + n → dp p = none) ∧
      (∀ bp bc, bestStateAux dp p0 n best = some (bp, bc) →
        (best = some (bp, bc) ∨ (p0 ≤ bp ∧ bp < p0 + n ∧ dp bp = some bc)) ∧
        (∀ p c, p0 ≤ p → p < p0 + n → dp p = some c → bc ≤ c) ∧
        (∀ b0, best = some b0 → bc ≤ b0.2)) := by
  intro n
  induction n with
  | zero =>
      intro p0 best
      constructor
      · intro h
        exact ⟨h, fun p hp1 hp2 => absurd hp2 (by omega)⟩
      · intro bp bc h
        refine ⟨Or.inl h, fun p c hp1 hp2 => absurd hp2 (by omega), ?_⟩
        intro b0 hb0
        rw [hb0] at h
        cases h
        exact le_refl _
  | succ n ih =>
      intro p0 best
      have hstep : bestStateAux dp p0 (n + 1) best =
          bestStateAux dp (p0 + 1) n
            (match dp p0, best with
             | some c, none => some (p0, c)
             | some c, some bb => if c < bb.2 then (p0, c) else bb
             | none, bb => bb) := rfl
      constructor
      · intro h
        rw [hstep] at h
        rcases (ih (p0 + 1) _).1 h with ⟨hb, hrange⟩
        cases hdp : dp p0 with
        | none =>
            simp only [hdp] at hb
            refine ⟨hb, fun p hp1 hp2 => ?_⟩
            rcases Nat.eq_or_lt_of_le hp1 with he | hlt
            · rw [← he]; exact hdp
            · exact hrange p hlt (by omega)
        | some c00 =>
            cases hbest : best with
            | none =>
                simp only [hdp, hbest] at hb
                cases hb
            | some b0 =>
                simp only [hdp, hbest] at hb
                split at hb <;> cases hb
      · intro bp bc h
        rw [hstep] at h
        rcases (ih (p0 + 1) _).2 bp bc h with ⟨hb, hmin, hle⟩
        cases hdp : dp p0 with
        | none =>
            simp only [hdp] at hb hle
            refine ⟨?_, ?_, hle⟩
            · rcases hb with hb | hb
              · exact Or.inl hb
              · exact Or.inr ⟨by omega, by omega, hb.2.2⟩
            · intro p c hp1 hp2 hdpp
              rcases Nat.eq_or_lt_of_le hp1 with he | hlt
              · rw [← he, hdp] at hdpp; cases hdpp
              · exact hmin p c hlt (by omega) hdpp
        | some c00 =>
            cases hbest : best with
            | none =>
                simp only [hdp, hbest] at hb hle
                have hbc00 : bc ≤ c00 := hle (p0, c00) rfl
                refine ⟨?_, ?_, by intro b0 hb0; cases hb0⟩
                · rcases hb with hb | hb
                  · cases hb
                    exact Or.inr ⟨le_refl _, by omega, hdp⟩
                  · exact Or.inr ⟨by omega, by omega, hb.2.2⟩
                · intro p c hp1 hp2 hdpp
                  rcases Nat.eq_or_lt_of_le hp1 with he | hlt
                  · rw [← he, hdp] at hdpp
                    cases hdpp
                    exact hbc00
                  · exact hmin p c hlt (by omega) hdpp
            | some b0 =>
                simp only [hdp, hbest] at hb hle
                by_cases hc : c00 < b0.2
                · rw [if_pos hc] at hb
                  have hbc00 : bc ≤ c00 := by
                    refine hle (p0, c00) ?_
                    rw [if_pos hc]
                  refine ⟨?_, ?_, ?_⟩
                  · rcases hb with hb | hb
                    · cases hb
                      exact Or.inr ⟨le_refl _, by omega, hdp⟩
                    · exact Or.inr ⟨by omega, by omega, hb.2.2⟩
                  · intro p c hp1 hp2 hdpp
                    rcases Nat.eq_or_lt_of_le hp1 with he | hlt
                    · rw [← he, hdp] at hdpp
                      cases hdpp
                      exact hbc00
                    · exact hmin p c hlt (by omega) hdpp
                  · intro b1 hb1
                    cases hb1
                    exact le_trans hbc00 (le_of_lt hc)
                · rw [if_neg hc] at hb
                  have hbb0 : bc ≤ b0.2 := by
                    refine hle b0 ?_
                    rw [if_neg hc]
                  refine ⟨?_, ?_, ?_⟩
                  · rcases hb with hb | hb
                    · exact Or.inl hb
                    · exact Or.inr ⟨by omega, by omega, hb.2.2⟩
                  · intro p c hp1 hp2 hdpp
                    rcases Nat.eq_or_lt_of_le hp1 with he | hlt
                    · rw [← he, hdp] at hdpp
                      cases hdpp
                      exact le_trans hbb0 (not_lt.mp hc)
                    · exact hmin p c hlt (by omega) hdpp
                  · intro b1 hb1
                    cases hb1
                    exact hbb0

theorem dpInit_some {p : ℕ} {c : ℚ} (h : dpInit p = some c) : p = 0 ∧ c = 0 := by
  by_cases hp : p = 0
  · subst hp
    refine ⟨rfl, ?_⟩
    simpa [dpInit] using h.symm
  · simp [dpInit, hp] at h

/-- `max(pos for pos, _, _ in g)` over a weighted group (weights do not touch
positions). -/
def wGroupMaxPos (g : List WOpt) : ℕ := (g.map (fun o => o.1)).foldr max 0

theorem wGroupMaxPos_cons (x : WOpt) (g : List WOpt) :
    wGroupMaxPos (x :: g) = max x.1 (wGroupMaxPos g) := by
  simp [wGroupMaxPos]

theorem mem_le_wGroupMaxPos {x : WOpt} {g : List WOpt} (h : x ∈ g) :
    x.1 ≤ wGroupMaxPos g := by
  induction g with
  | nil => exact absurd h (List.not_mem_nil x)
  | cons y t ih =>
      rw [wGroupMaxPos_cons]
      rcases List.mem_cons.mp h with he | ht
      · subst he; exact le_max_left _ _
      · exact le_trans (ih ht) (le_max_right _ _)

theorem exists_wGroupMaxPos_mem {g : List WOpt} (h : g ≠ []) :
    ∃ x ∈ g, x.1 = wGroupMaxPos g := by
  induction g with
  | nil => exact absurd rfl h
  | cons y t ih =>
      cases t with
      | nil =>
          refine ⟨y, List.mem_cons_self _ _, ?_⟩
          simp [wGroupMaxPos]
      | cons z t2 =>
          rcases ih (by simp) with ⟨x, hx, hmax⟩
          rw [wGroupMaxPos_cons]
          rcases le_total (wGroupMaxPos (z :: t2)) y.1 with hle | hle
          · exact ⟨y, List.mem_cons_self _ _, (max_eq_left hle).symm⟩
          · exact ⟨x, List.mem_cons_of_mem _ hx, by rw [max_eq_right hle, hmax]⟩

theorem selPos_le_sum {gs : List (List WOpt)} {sel : List (Option WOpt)}
    (h : ValidSel gs sel) : selPos sel ≤ (gs.map wGroupMaxPos).sum := by
  induction h with
  | nil => simp
  | @cons g o gs sel rel hrest ih =>
      rcases rel with he | ⟨x, hx, he⟩
      · subst he
        simp only [selPos_cons_none, List.map_cons, List.sum_cons]
        omega
      · subst he
        simp only [selPos_cons_some, List.map_cons, List.sum_cons]
        have := mem_le_wGroupMaxPos hx
        omega

theorem exists_sel_max :
    ∀ (gs : List (List WOpt)), (∀ g ∈ gs, g ≠ []) →
      ∃ sel, ValidSel gs sel ∧ selPos sel = (gs.map wGroupMaxPos).sum := by
  intro gs
  induction gs with
  | nil => exact fun _ => ⟨[], List.Forall₂.nil, by simp⟩
  | cons g gs ih =>
      intro hne
      rcases ih (fun g2 hg2 => hne g2 (List.mem_cons_of_mem _ hg2)) with ⟨sel, hval, hpos⟩
      rcases exists_wGroupMaxPos_mem (hne g (List.mem_cons_self _ _)) with ⟨x, hx, hmax⟩
      refine ⟨some x :: sel, List.Forall₂.cons (Or.inr ⟨x, hx, rfl⟩) hval, ?_⟩
      simp only [selPos_cons_some, List.map_cons, List.sum_cons]
      omega

theorem dpSolve_sound {cap lo : ℕ} {gs : List (List WOpt)}
    {sel : List (Option WOpt)} (h : dpSolve cap lo gs = some sel) :
    ∃ bp bc, bestState (runDP cap dpInit gs).1 lo cap = some (bp, bc) ∧
      ValidSel gs sel ∧ selPos sel = bp ∧ selCost sel = bc ∧
      (runDP cap dpInit gs).1 bp = some bc := by
  simp only [dpSolve] at h
  cases hbs : bestState (runDP cap dpInit gs).1 lo cap with
  | none => rw [hbs] at h; cases h
  | some bb =>
      rw [hbs] at h
      have h2 : Option.map Prod.fst
          (backtrackAux ((gs.zip (runDP cap dpInit gs).2).reverse) bb.1) = some sel := h
      rcases ((bestStateAux_spec (runDP cap dpInit gs).1 (cap - lo) lo none).2
        bb.1 bb.2 hbs) with ⟨hin, hmin, _⟩
      rcases hin with hin | hin
      · cases hin
      · have hdpf : (runDP cap dpInit gs).1 bb.1 = some bb.2 := hin.2.2
        rcases runDP_backtrack cap gs dpInit bb.1 bb.2 hdpf with
          ⟨sel2, p0, c0, hbt, hinit, hval, hpos, hcost⟩
        rcases dpInit_some hinit with ⟨hp0, hc0⟩
        subst hp0; subst hc0
        rw [hbt] at h2
        simp only [Option.map_some'] at h2
        cases h2
        exact ⟨bb.1, bb.2, rfl, hval, by omega, by linarith, hdpf⟩

theorem dpSolve_opt (cap lo : ℕ) (gs : List (List WOpt))
    (hne : ∀ g ∈ gs, g ≠ [])
    (hcap : (gs.map wGroupMaxPos).sum < cap)
    (hlo : lo ≤ (gs.map wGroupMaxPos).sum) :
    ∃ sel, dpSolve cap lo gs = some sel ∧ ValidSel gs sel ∧
      lo ≤ selPos sel ∧
      ∀ sel2, ValidSel gs sel2 → lo ≤ selPos sel2 →
        selCost sel ≤ selCost sel2 := by
  rcases exists_sel_max gs hne with ⟨selM, hvalM, hposM⟩
  have hM : (0 : ℕ) + selPos selM < cap := by omega
  rcases runDP_complete cap gs selM hvalM dpInit 0 0 (by simp [dpInit]) hM with
    ⟨cM, hcM, hdpM⟩
  cases hbs : bestState (runDP cap dpInit gs).1 lo cap with
  | none =>
      exfalso
      rcases (bestStateAux_spec (runDP cap dpInit gs).1 (cap - lo) lo none).1
        hbs with ⟨_, hrange⟩
      have : (runDP cap dpInit gs).1 (selPos selM) = none := by
        refine hrange (selPos selM) (by omega) (by omega)
      rw [Nat.zero_add] at hdpM
      rw [this] at hdpM
      cases hdpM
  | some bb =>
      rcases (bestStateAux_spec (runDP cap dpInit gs).1 (cap - lo) lo none).2
        bb.1 bb.2 hbs with ⟨hin, hmin, _⟩
      rcases hin with hin | hin
      · cases hin
      · have hdpf : (runDP cap dpInit gs).1 bb.1 = some bb.2 := hin.2.2
        rcases runDP_backtrack cap gs dpInit bb.1 bb.2 hdpf with
          ⟨sel, p0, c0, hbt, hinit, hval, hpos, hcost⟩
        rcases dpInit_some hinit with ⟨hp0, hc0⟩
        subst hp0; subst hc0
        refine ⟨sel, ?_, hval, by omega, ?_⟩
        · simp only [dpSolve]
          rw [hbs]
          show Option.map Prod.fst
            (backtrackAux ((gs.zip (runDP cap dpInit gs).2).reverse) bb.1) = some sel
          rw [hbt]
          rfl
        · intro sel2 hval2 hlo2
          have hb2 : (0 : ℕ) + selPos sel2 < cap := by
            have := selPos_le_sum hval2
            omega
          rcases runDP_complete cap gs sel2 hval2 dpInit 0 0 (by simp [dpInit]) hb2 with
            ⟨c2, hc2, hdp2⟩
          rw [Nat.zero_add] at hdp2
          have hbc2 : bb.2 ≤ c2 := by
            refine hmin (selPos sel2) c2 hlo2 ?_ hdp2
            omega
          have hself : selCost sel = bb.2 := by linarith
          linarith

theorem groupMaxPos_weightGroups (W : ℕ → ℕ → ℚ) (gs : List (List RawOpt)) :
    (weightGroups W gs).map wGroupMaxPos = gs.map groupMaxPos := by
  simp only [weightGroups, List.map_map]
  congr 1
  funext g
  show ((g.map (fun o =>
    (o.1, (o.2.1 : ℚ) * W o.2.2.current_rank o.2.2.new_rank, o.2.2))).map
      (fun o => o.1)).foldr max 0 = (g.map (fun o => o.1)).foldr max 0
  rw [List.map_map]
  rfl

theorem build_overtake_groups_groups_nonempty :
    ∀ (player_times : List PlayerTrackTime)
      (leaderboards : List (String × List LeaderboardEntry))
      (total_tracks : ℕ) (player_username : String),
      ∀ g ∈ (build_overtake_groups player_times leaderboards total_tracks player_username).2,
        g ≠ [] := by
  intro pts
  induction pts with
  | nil => intro lbs tt user g hg; simp [build_overtake_groups] at hg
  | cons pt rest ih =>
      intro lbs tt user g hg
      simp only [build_overtake_groups] at hg
      split at hg
      · exact ih lbs tt user g hg
      · split at hg
        · split at hg
          · exact ih lbs tt user g hg
          · split at hg
            · exact ih lbs tt user g hg
            · exact ih lbs tt user g hg
        · split at hg
          · exact ih lbs tt user g hg
          · split at hg
            · exact ih lbs tt user g hg
            · rename_i htiers
              rcases List.mem_cons.mp hg with he | hrest
              · subst he
                intro hc
                exact htiers (List.map_eq_nil_iff.mp hc)
              · exact ih lbs tt user g hrest

theorem build_overtake_groups_is_na_false :
    ∀ (player_times : List PlayerTrackTime)
      (leaderboards : List (String × List LeaderboardEntry))
      (total_tracks : ℕ) (player_username : String),
      ∀ g ∈ (build_overtake_groups player_times leaderboards total_tracks player_username).2,
        ∀ o ∈ g, o.2.2.is_na = false := by
  intro pts
  induction pts with
  | nil => intro lbs tt user g hg; simp [build_overtake_groups] at hg
  | cons pt rest ih =>
      intro lbs tt user g hg
      simp only [build_overtake_groups] at hg
      split at hg
      · exact ih lbs tt user g hg
      · split at hg
        · split at hg
          · exact ih lbs tt user g hg
          · split at hg
            · exact ih lbs tt user g hg
            · exact ih lbs tt user g hg
        · split at hg
          · exact ih lbs tt user g hg
          · split at hg
            · exact ih lbs tt user g hg
            · rcases List.mem_cons.mp hg with he | hrest
              · intro o ho
                subst he
                rcases List.mem_map.mp ho with ⟨tier, htier, ho2⟩
                rw [← ho2]
                rfl
              · exact ih lbs tt user g hrest

/-- **C1.**  Whenever the cost-minimizing planner reaches the dynamic-program
search (positive AF gap, N/A gains insufficient, feasibility check passed),
it returns normally, and the backtracked solution `sel` selects at most one
option per track group (`ValidSel` — one `Option` entry per group), gains at
least the remaining requirement, and its total difficulty-weighted cost is
minimal among all selections of at most one option per group achieving at
least that requirement.  The returned plan's items are the N/A items plus the
selected options' plan items. -/
theorem overtake_plan_dp_optimal (W : ℕ → ℕ → ℚ)
    (player_times : List PlayerTrackTime)
    (leaderboards : List (String × List LeaderboardEntry))
    (current_af target_af : ℚ) (total_tracks : ℕ)
    (player_username target_username : String)
    (h1 : 0 < current_af - target_af)
    (h2 : 0 < remainingOf player_times leaderboards current_af target_af
      total_tracks player_username)
    (h3 : remainingOf player_times leaderboards current_af target_af
        total_tracks player_username ≤
      (maxPositionsOf player_times leaderboards total_tracks player_username : ℤ)) :
    ∃ sel plan,
      dpSolve (maxPositionsOf player_times leaderboards total_tracks player_username + 1)
        (remainingOf player_times leaderboards current_af target_af
          total_tracks player_username).toNat
        (weightedGroupsOf W player_times leaderboards total_tracks player_username) =
        some sel ∧
      compute_overtake_plan W player_times leaderboards current_af target_af
        total_tracks player_username target_username = Except.ok plan ∧
      ValidSel (weightedGroupsOf W player_times leaderboards total_tracks
        player_username) sel ∧
      remainingOf player_times leaderboards current_af target_af total_tracks
        player_username ≤ (selPos sel : ℤ) ∧
      (∀ sel2, ValidSel (weightedGroupsOf W player_times leaderboards total_tracks
          player_username) sel2 →
        remainingOf player_times leaderboards current_af target_af total_tracks
          player_username ≤ (selPos sel2 : ℤ) →
        selCost sel ≤ selCost sel2) ∧
      plan.feasible = true ∧
      plan.items = sortByAfDesc
        ((build_overtake_groups player_times leaderboards total_tracks player_username).1 ++
          (selItems sel).reverse) := by
  have hne : ∀ g ∈ weightedGroupsOf W player_times leaderboards total_tracks
      player_username, g ≠ [] := by
    intro g hg
    rcases List.mem_map.mp hg with ⟨g0, hg0, rfl⟩
    intro hc
    exact build_overtake_groups_groups_nonempty player_times leaderboards total_tracks
      player_username g0 hg0 (List.map_eq_nil_iff.mp hc)
  have hsum : ((weightedGroupsOf W player_times leaderboards total_tracks
      player_username).map wGroupMaxPos).sum =
      maxPositionsOf player_times leaderboards total_tracks player_username := by
    rw [weightedGroupsOf, groupMaxPos_weightGroups]
    rfl
  have hlo : (remainingOf player_times leaderboards current_af target_af total_tracks
      player_username).toNat ≤
      ((weightedGroupsOf W player_times leaderboards total_tracks
        player_username).map wGroupMaxPos).sum := by
    rw [hsum]
    exact Int.toNat_le.mpr h3
  have hcap : ((weightedGroupsOf W player_times leaderboards total_tracks
      player_username).map wGroupMaxPos).sum <
      maxPositionsOf player_times leaderboards total_tracks player_username + 1 := by
    rw [hsum]
    omega
  rcases dpSolve_opt
      (maxPositionsOf player_times leaderboards total_tracks player_username + 1)
      (remainingOf player_times leaderboards current_af target_af total_tracks
        player_username).toNat
      (weightedGroupsOf W player_times leaderboards total_tracks player_username)
      hne hcap hlo with ⟨sel, hsel, hval, hge, hmin⟩
  have hge2 : remainingOf player_times leaderboards current_af target_af total_tracks
      player_username ≤ (selPos sel : ℤ) := Int.toNat_le.mp hge
  have hsel2 := hsel
  rw [remainingOf] at hsel2
  have heq : compute_overtake_plan W player_times leaderboards current_af target_af
      total_tracks player_username target_username =
      Except.ok
        { target_username := target_username, target_af := target_af,
          current_af := current_af, af_gap := current_af - target_af,
          total_positions_needed := positionsNeededOf current_af target_af total_tracks,
          total_positions_gained :=
            naPositionsOf player_times leaderboards total_tracks player_username +
            (((selItems sel).reverse).map (fun it => it.positions_gained)).sum,
          total_time_investment_cs :=
            (((selItems sel).reverse).map (fun it => it.time_delta_cs)).sum,
          new_af := current_af -
            ((naPositionsOf player_times leaderboards total_tracks player_username +
              (((selItems sel).reverse).map (fun it => it.positions_gained)).sum : ℤ) : ℚ) /
              (total_tracks : ℚ),
          items := sortByAfDesc
            ((build_overtake_groups player_times leaderboards total_tracks
              player_username).1 ++ (selItems sel).reverse),
          feasible := true } := by
    simp only [compute_overtake_plan]
    rw [if_neg (not_le.mpr h1)]
    rw [if_neg (by rw [remainingOf] at h2; exact not_le.mpr h2)]
    rw [if_neg (by rw [remainingOf] at h3; exact not_lt.mpr h3)]
    rw [hsel2]
  refine ⟨sel, _, hsel, heq, hval, hge2, ?_, rfl, rfl⟩
  intro sel2 hval2 hge3
  exact hmin sel2 hval2 (Int.toNat_le.mpr hge3)

/-- Witness for `overtake_plan_dp_optimal` on the concrete scenario
(`pts1`/`lbs1`, AF gap 3/2, one group with options gaining 1..4 positions). -/
theorem overtake_plan_dp_optimal_witness :
    ((0 : ℚ) < (5/2 : ℚ) - 1 ∧
     0 < remainingOf pts1 lbs1 (5/2) 1 1 "me" ∧
     remainingOf pts1 lbs1 (5/2) 1 1 "me" ≤ (maxPositionsOf pts1 lbs1 1 "me" : ℤ)) ∧
    (∃ sel plan,
      dpSolve (maxPositionsOf pts1 lbs1 1 "me" + 1)
        (remainingOf pts1 lbs1 (5/2) 1 1 "me").toNat
        (weightedGroupsOf Wone pts1 lbs1 1 "me") = some sel ∧
      compute_overtake_plan Wone pts1 lbs1 (5/2) 1 1 "me" "rival" = Except.ok plan ∧
      ValidSel (weightedGroupsOf Wone pts1 lbs1 1 "me") sel ∧
      remainingOf pts1 lbs1 (5/2) 1 1 "me" ≤ (selPos sel : ℤ) ∧
      (∀ sel2, ValidSel (weightedGroupsOf Wone pts1 lbs1 1 "me") sel2 →
        remainingOf pts1 lbs1 (5/2) 1 1 "me" ≤ (selPos sel2 : ℤ) →
        selCost sel ≤ selCost sel2) ∧
      plan.feasible = true ∧
      plan.items = sortByAfDesc
        ((build_overtake_groups pts1 lbs1 1 "me").1 ++ (selItems sel).reverse)) :=
  ⟨⟨by with_unfolding_all decide, by with_unfolding_all decide,
    by with_unfolding_all decide⟩,
   overtake_plan_dp_optimal Wone pts1 lbs1 (5/2) 1 1 "me" "rival"
     (by with_unfolding_all decide) (by with_unfolding_all decide)
     (by with_unfolding_all decide)⟩

theorem selItems_of_valid {gs : List (List WOpt)} {sel : List (Option WOpt)}
    (h : ValidSel gs sel) :
    ∀ it ∈ selItems sel, ∃ g ∈ gs, ∃ o ∈ g, it = o.2.2 := by
  induction h with
  | nil => intro it hit; simp at hit
  | @cons g o gs sel rel hrest ih =>
      intro it hit
      rcases rel with he | ⟨x, hx, he⟩
      · subst he
        rw [selItems_cons_none] at hit
        rcases ih it hit with ⟨g2, hg2, o2, ho2, he2⟩
        exact ⟨g2, List.mem_cons_of_mem _ hg2, o2, ho2, he2⟩
      · subst he
        rw [selItems_cons_some] at hit
        rcases List.mem_cons.mp hit with he2 | hit2
        · exact ⟨g, List.mem_cons_self _ _, x, hx, he2⟩
        · rcases ih it hit2 with ⟨g2, hg2, o2, ho2, he2⟩
          exact ⟨g2, List.mem_cons_of_mem _ hg2, o2, ho2, he2⟩

/-- **C7.**  For every plan the cost-minimizing planner returns,
`total_time_investment_cs` is the sum of the ranked items' raw, unweighted
`time_delta_cs` values: the difficulty weight steers only the DP search and
never appears in a reported field (the statement quantifies over every weight
function `W`, and the reported value is independent of it). -/
theorem reported_time_investment_raw (W : ℕ → ℕ → ℚ)
    (player_times : List PlayerTrackTime)
    (leaderboards : List (String × List LeaderboardEntry))
    (current_af target_af : ℚ) (total_tracks : ℕ)
    (player_username target_username : String) (plan : OvertakePlan)
    (h : compute_overtake_plan W player_times leaderboards current_af target_af
      total_tracks player_username target_username = Except.ok plan) :
    plan.total_time_investment_cs =
      ((plan.items.filter (fun it => !it.is_na)).map (fun it => it.time_delta_cs)).sum := by
  simp only [compute_overtake_plan] at h
  split at h
  · cases h
    rfl
  · split at h
    · cases h
      simp only
      rw [build_overtake_groups_na_empty]
      rfl
    · split at h
      · cases h
        simp only
        rw [build_overtake_groups_na_empty]
        rfl
      · rename_i hfeas
        cases hd : dpSolve
            (maxPositionsOf player_times leaderboards total_tracks player_username + 1)
            (positionsNeededOf current_af target_af total_tracks -
              naPositionsOf player_times leaderboards total_tracks player_username).toNat
            (weightedGroupsOf W player_times leaderboards total_tracks player_username) with
        | none => rw [hd] at h; cases h
        | some sel =>
            rw [hd] at h
            cases h
            simp only
            rw [build_overtake_groups_na_empty, List.nil_append]
            obtain ⟨bp, bc, _, hval, _⟩ := dpSolve_sound hd
            have hna : ∀ it ∈ (selItems sel).reverse, (fun it => !it.is_na) it = true := by
              intro it hit
              rw [List.mem_reverse] at hit
              rcases selItems_of_valid hval it hit with ⟨g, hg, o, ho, he⟩
              rcases List.mem_map.mp hg with ⟨g0, hg0, rfl⟩
              rcases List.mem_map.mp ho with ⟨o0, ho0, rfl⟩
              have := build_overtake_groups_is_na_false player_times leaderboards
                total_tracks player_username g0 hg0 o0 ho0
              simp [he, this]
            have hp : ((sortByAfDesc ((selItems sel).reverse)).filter
                (fun it => !it.is_na)).Perm
                (((selItems sel).reverse).filter (fun it => !it.is_na)) :=
              (List.perm_insertionSort _ _).filter _
            have hsum : (((sortByAfDesc ((selItems sel).reverse)).filter
                (fun it => !it.is_na)).map (fun it => it.time_delta_cs)).sum =
                ((((selItems sel).reverse).filter (fun it => !it.is_na)).map
                  (fun it => it.time_delta_cs)).sum :=
              (hp.map _).sum_eq
            rw [hsum, List.filter_eq_self.mpr hna]

instance : Inhabited OvertakePlan :=
  ⟨{ target_username := "", target_af := 0, current_af := 0, af_gap := 0,
     total_positions_needed := 0, total_positions_gained := 0,
     total_time_investment_cs := 0, new_af := 0 }⟩

instance {α β : Type} [DecidableEq α] [DecidableEq β] : DecidableEq (Except α β) :=
  fun a b =>
    match a, b with
    | Except.ok x, Except.ok y =>
        if h : x = y then isTrue (by rw [h]) else
          isFalse (by intro hc; cases hc; exact h rfl)
    | Except.error x, Except.error y =>
        if h : x = y then isTrue (by rw [h]) else
          isFalse (by intro hc; cases hc; exact h rfl)
    | Except.ok x, Except.error y => isFalse (by intro hc; cases hc)
    | Except.error x, Except.ok y => isFalse (by intro hc; cases hc)

/-- Witness for `reported_time_investment_raw` on the DP-branch scenario. -/
theorem reported_time_investment_raw_witness :
    compute_overtake_plan Wone pts1 lbs1 (5/2) 1 1 "me" "rival" =
      Except.ok ((compute_overtake_plan Wone pts1 lbs1 (5/2) 1 1 "me"
        "rival").toOption.getD default) ∧
    ((compute_overtake_plan Wone pts1 lbs1 (5/2) 1 1 "me"
        "rival").toOption.getD default).total_time_investment_cs =
      ((((compute_overtake_plan Wone pts1 lbs1 (5/2) 1 1 "me"
        "rival").toOption.getD default).items.filter
          (fun it => !it.is_na)).map (fun it => it.time_delta_cs)).sum :=
  ⟨by with_unfolding_all decide,
   reported_time_investment_raw Wone pts1 lbs1 (5/2) 1 1 "me" "rival" _
     (by with_unfolding_all decide)⟩

/-- A single ranked variant offering at most 6 positions (spec's
infeasibility scenario shape): the player `"me"` is rank 7 behind six
entries. -/
def pts3 : List PlayerTrackTime :=
  [⟨"t", "T", "car", "standard", "3-laps", 100, 7, false⟩]

/-- The matching leaderboard snapshot for `pts3`. -/
def lbs3 : List (String × List LeaderboardEntry) :=
  [("t/car/standard/3-laps",
    [⟨1, "a", "a", 80, false⟩, ⟨2, "b", "b", 82, false⟩, ⟨3, "c", "c", 84, false⟩,
     ⟨4, "d", "d", 86, false⟩, ⟨5, "e", "e", 88, false⟩, ⟨6, "f", "f", 90, false⟩,
     ⟨7, "me", "me", 100, false⟩])]

/-- **C5, counterexample.**  On a requirement of 10 positions where the only
group can supply at most 6, the planner returns `feasible=false` with **no**
items and 0 positions gained — not "the best partial set of items found"
(a 6-position subset was attainable). -/
theorem infeasible_plan_lacks_partial_items :
    (compute_overtake_plan Wone pts3 lbs3 10 (1/2) 1 "me" "rival").toOption.map
      (fun p => (p.feasible, p.total_positions_needed, p.total_positions_gained,
        p.total_time_investment_cs, p.items)) = some (false, 10, 0, 0, []) ∧
    maxPositionsOf pts3 lbs3 1 "me" = 6 :=
  ⟨by with_unfolding_all decide, by with_unfolding_all decide⟩

/-- **C5, amended.**  When the overtake requirement is infeasible (the sum of
the groups' maximum gains is below the remaining requirement), the
cost-minimizing planner returns normally — never raising — with
`feasible=false`, reported time-investment 0, no DP search performed (the
result does not depend on the weight function `W`), and a plan containing
exactly the N/A items (which are in fact always the empty list), **not** the
best partial set of ranked items. -/
theorem infeasible_overtake_plan (W : ℕ → ℕ → ℚ)
    (player_times : List PlayerTrackTime)
    (leaderboards : List (String × List LeaderboardEntry))
    (current_af target_af : ℚ) (total_tracks : ℕ)
    (player_username target_username : String)
    (h1 : 0 < current_af - target_af)
    (h2 : 0 < remainingOf player_times leaderboards current_af target_af
      total_tracks player_username)
    (h3 : (maxPositionsOf player_times leaderboards total_tracks player_username : ℤ) <
      remainingOf player_times leaderboards current_af target_af total_tracks
        player_username) :
    compute_overtake_plan W player_times leaderboards current_af target_af
      total_tracks player_username target_username =
      Except.ok
        { target_username := target_username, target_af := target_af,
          current_af := current_af, af_gap := current_af - target_af,
          total_positions_needed := positionsNeededOf current_af target_af total_tracks,
          total_positions_gained :=
            naPositionsOf player_times leaderboards total_tracks player_username,
          total_time_investment_cs := 0,
          new_af := current_af -
            ((naPositionsOf player_times leaderboards total_tracks player_username : ℤ) : ℚ) /
              (total_tracks : ℚ),
          items := (build_overtake_groups player_times leaderboards total_tracks
            player_username).1,
          feasible := false } := by
  simp only [compute_overtake_plan]
  rw [if_neg (not_le.mpr h1)]
  rw [if_neg (by rw [remainingOf] at h2; exact not_le.mpr h2)]
  rw [if_pos (by rw [remainingOf] at h3; exact h3)]

/-- Witness for `infeasible_overtake_plan` on the `pts3`/`lbs3` scenario. -/
theorem infeasible_overtake_plan_witness :
    ((0 : ℚ) < (10 : ℚ) - 1/2 ∧
     0 < remainingOf pts3 lbs3 10 (1/2) 1 "me" ∧
     (maxPositionsOf pts3 lbs3 1 "me" : ℤ) < remainingOf pts3 lbs3 10 (1/2) 1 "me") ∧
    compute_overtake_plan Wone pts3 lbs3 10 (1/2) 1 "me" "rival" =
      Except.ok
        { target_username := "rival", target_af := 1/2, current_af := 10,
          af_gap := (10 : ℚ) - 1/2,
          total_positions_needed := positionsNeededOf 10 (1/2) 1,
          total_positions_gained := naPositionsOf pts3 lbs3 1 "me",
          total_time_investment_cs := 0,
          new_af := 10 - ((naPositionsOf pts3 lbs3 1 "me" : ℤ) : ℚ) / ((1 : ℕ) : ℚ),
          items := (build_overtake_groups pts3 lbs3 1 "me").1,
          feasible := false } :=
  ⟨⟨by with_unfolding_all decide, by with_unfolding_all decide,
    by with_unfolding_all decide⟩,
   infeasible_overtake_plan Wone pts3 lbs3 10 (1/2) 1 "me" "rival"
     (by with_unfolding_all decide) (by with_unfolding_all decide)
     (by with_unfolding_all decide)⟩

/-- The spec's end-to-end N/A scenario data: an N/A variant with one real
entry (the spec expects it to "guarantee +2 positions at zero cost") and a
ranked variant offering one tier of +1 position. -/
def pts2 : List PlayerTrackTime :=
  [⟨"u", "U", "car", "standard", "3-laps", 0, 0, true⟩,
   ⟨"t", "T", "car", "standard", "3-laps", 99, 2, false⟩]

/-- The matching leaderboard snapshot for `pts2`. -/
def lbs2 : List (String × List LeaderboardEntry) :=
  [("u/car/standard/3-laps", [⟨1, "x", "x", 50, false⟩]),
   ("t/car/standard/3-laps", [⟨1, "y", "y", 49, false⟩, ⟨2, "me", "me", 99, false⟩])]

/-- **C2.**  On the spec's own end-to-end scenario (gap requiring 3
positions, an N/A variant with a real entry, a ranked variant offering +1),
the cost-minimizing planner's N/A item list is **empty** — the N/A
opportunity contributes 0 positions, not +2, because the builder computes
`positions_gained = (worst.rank+1) - (worst.rank+1) = 0` and filters it out —
and the plan comes out infeasible with nothing selected, instead of the
spec's `feasible=true` with 3 positions for 50cs. -/
theorem na_tracks_never_included_eval :
    (build_overtake_groups pts2 lbs2 2 "me").1 = [] ∧
    (compute_overtake_plan Wone pts2 lbs2 (29/10) (3/2) 2 "me" "rival").toOption.map
      (fun p => (p.feasible, p.total_positions_needed, p.total_positions_gained,
        p.total_time_investment_cs, p.items.length)) = some (false, 3, 0, 0, 0) :=
  ⟨by with_unfolding_all decide, by with_unfolding_all decide⟩

/-! ## The exponential difficulty weight (`optimizer._difficulty_weight`) -/

/-- `optimizer.DIFFICULTY_K`. -/
def DIFFICULTY_K : ℝ := 5

/-- The climb fraction `1 - target_rank / current_rank` of
`_difficulty_weight`, in exact arithmetic. -/
def difficultyClimb (current_rank target_rank : ℕ) : ℚ :=
  1 - (target_rank : ℚ) / (current_rank : ℚ)

/-- `optimizer._difficulty_weight`: `exp(DIFFICULTY_K * (1 - target_rank /
current_rank))`, as the mathematical real-valued function the float code
computes. -/
noncomputable def difficulty_weight (current_rank target_rank : ℕ) : ℝ :=
  Real.exp (DIFFICULTY_K * ((difficultyClimb current_rank target_rank : ℚ) : ℝ))

/-- **C6.**  The difficulty weight equals 1 when `target_rank = current_rank`
and, for a fixed positive `current_rank`, strictly increases as `target_rank`
decreases toward 1. -/
theorem difficulty_weight_props (current_rank t1 t2 : ℕ)
    (hc : 0 < current_rank) (ht : t1 < t2) :
    difficulty_weight current_rank current_rank = 1 ∧
    difficulty_weight current_rank t2 < difficulty_weight current_rank t1 := by
  have hcq : (0 : ℚ) < (current_rank : ℚ) := by exact_mod_cast hc
  constructor
  · have hclimb : difficultyClimb current_rank current_rank = 0 := by
      rw [difficultyClimb, div_self (ne_of_gt hcq)]
      ring
    rw [difficulty_weight, hclimb]
    norm_num [Real.exp_zero]
  · rw [difficulty_weight, difficulty_weight]
    apply Real.exp_lt_exp.mpr
    have hdiv : (t1 : ℚ) / (current_rank : ℚ) < (t2 : ℚ) / (current_rank : ℚ) :=
      (div_lt_div_right hcq).mpr (by exact_mod_cast ht)
    have hclimb : difficultyClimb current_rank t2 < difficultyClimb current_rank t1 := by
      rw [difficultyClimb, difficultyClimb]
      linarith
    have hcast : ((difficultyClimb current_rank t2 : ℚ) : ℝ) <
        ((difficultyClimb current_rank t1 : ℚ) : ℝ) := by exact_mod_cast hclimb
    have hK : (0 : ℝ) < DIFFICULTY_K := by norm_num [DIFFICULTY_K]
    exact mul_lt_mul_of_pos_left hcast hK

/-- Witness for `difficulty_weight_props` at `current_rank = 4`, targets 1 and 2. -/
theorem difficulty_weight_props_witness :
    ((0 : ℕ) < 4 ∧ (1 : ℕ) < 2) ∧
    (difficulty_weight 4 4 = 1 ∧ difficulty_weight 4 2 < difficulty_weight 4 1) :=
  ⟨⟨by decide, by decide⟩, difficulty_weight_props 4 1 2 (by decide) (by decide)⟩
